import Mathlib

/-!
Shallow embedding of `src/databases/backends/mysql.py`: the `Record` row
wrapper, the `MySQLSession` connection-lease protocol and query operations,
and the `MySQLTransaction` nested BEGIN/SAVEPOINT state machine.

Modelling conventions:
* Python machine state is explicit: a `Session` holds `conn`,
  `connection_holders` and `has_root_transaction` exactly as the source
  object does; the pool is modelled inside the session as a supply of fresh
  connection identifiers (`nextConn`) plus events recording
  `pool.acquire` / `pool.release` calls.
* Fallible external driver calls (`conn.cursor()`, `cursor.execute(...)`,
  `conn.begin/commit/rollback`) are parametrised by explicit success flags;
  a failed call raises (returns an error) and emits no event, a successful
  call emits the corresponding event.  `pool.acquire`, `pool.release` and
  `cursor.close` are modelled as infallible.
* A raised Python exception propagates: statements after the raise in the
  same function body do not run, `finally:` blocks do run.  Mutations made
  before the raise persist, as in Python.
* Missing object attributes (`self.conn` / `self.savepoint_name` before
  `start()` assigns them) are `Option.none`; reading them raises
  `AttributeError`, as in Python.
* `uuid.uuid4()` is modelled as an injectively seeded canonical
  8-4-4-4-12 lower-case hex string; the process draws seeds from a counter
  (`nextUuid`), the idealisation of the randomly generated 128-bit value.
* `Txn` carries ghost fields (suffix `G`) that record history for the
  proofs (started / terminated / set the root flag / cleared it); they
  influence no behaviour.  `World.rootOwner` is likewise ghost.
-/

namespace Databases

/-- Raw column values as delivered by the driver (a row cell). -/
inductive Value where
  | vInt : Int → Value
  | vStr : String → Value
  | vNone : Value
  deriving DecidableEq

/-- Python exceptions that the embedded code can raise. -/
inductive PyErr where
  | keyError : String → PyErr
  | typeError : PyErr
  | indexError : PyErr
  | attributeError : String → PyErr
  | operationalError : PyErr
  deriving DecidableEq

/-- One compiled result-column descriptor: `col[0]` is the name and
`col[-1].python_type` is the declared type-conversion function. -/
structure ResultColumn where
  name : String
  python_type : Value → Value

/-- The output of `self._compile(query)` that the session operations use:
SQL text plus the ordered result-column descriptors.  (The parameter list
is irrelevant to every claim and is omitted.) -/
structure Compiled where
  sql : String
  result_columns : List ResultColumn

/-- `Record`: wraps one raw row (which `cursor.fetchone()` may deliver as
`None`) together with its column descriptors. -/
structure Record where
  row : Option (List Value)
  result_columns : List ResultColumn

/-- The dict comprehension
`{col[0]: (idx, col) for idx, col in enumerate(result_columns)}`:
a later duplicate name overwrites an earlier one, so lookup resolves to the
last matching column, paired with its position. -/
def columnMapLookupAux (key : String) : List ResultColumn → Nat → Option (Nat × ResultColumn)
  | [], _ => none
  | c :: rest, i =>
      match columnMapLookupAux key rest (i + 1) with
      | some r => some r
      | none => if c.name == key then some (i, c) else none

/-- Lookup in `self._column_map`. -/
def columnMapLookup (cols : List ResultColumn) (key : String) : Option (Nat × ResultColumn) :=
  columnMapLookupAux key cols 0

/-- `Record.__getitem__`: `idx, col = self._column_map[key]` (raises
`KeyError` when absent), `raw = self._row[idx]` (raises `TypeError` when
the row is `None`, `IndexError` when the position is out of range), then
returns `col[-1].python_type(raw)`. -/
def Record.getItem (r : Record) (key : String) : Except PyErr Value :=
  match columnMapLookup r.result_columns key with
  | none => Except.error (PyErr.keyError key)
  | some (idx, col) =>
      match r.row with
      | none => Except.error PyErr.typeError
      | some cells =>
          match cells.get? idx with
          | none => Except.error PyErr.indexError
          | some raw => Except.ok (col.python_type raw)

/-- Observable events: driver calls issued by the embedded code, plus the
lease-accounting markers `evAcquireLease` / `evReleaseLease` recording each
`acquire_connection` / `release_connection` call. -/
inductive Ev where
  | poolAcquire : Nat → Ev
  | poolRelease : Option Nat → Ev
  | evAcquireLease : Ev
  | evReleaseLease : Ev
  | cursorOpen : Nat → Ev
  | cursorExec : Nat → String → Ev
  | cursorClose : Ev
  | connBegin : Nat → Ev
  | connCommit : Nat → Ev
  | connRollback : Nat → Ev
  deriving DecidableEq

/-- `MySQLSession` state: the leased connection (`self.conn`), the lease
count (`self.connection_holders`), the root-transaction flag, and the
pool's supply of fresh connection identifiers. -/
structure Session where
  conn : Option Nat
  connection_holders : Int
  has_root_transaction : Bool
  nextConn : Nat
  deriving DecidableEq

/-- A freshly constructed session (no lease, counter zero, no root). -/
def freshSession : Session :=
  { conn := none, connection_holders := 0, has_root_transaction := false, nextConn := 0 }

/-- `MySQLSession.acquire_connection`: increment the holder count; if no
connection is leased, acquire one from the pool and store it; return the
leased connection. -/
def Session.acquire_connection (s : Session) : Nat × Session × List Ev :=
  let s1 : Session := { s with connection_holders := s.connection_holders + 1 }
  match s1.conn with
  | none =>
      let c := s1.nextConn
      (c, { s1 with conn := some c, nextConn := s1.nextConn + 1 },
        [Ev.evAcquireLease, Ev.poolAcquire c])
  | some c => (c, s1, [Ev.evAcquireLease])

/-- `MySQLSession.release_connection`: decrement the holder count; when it
reaches exactly zero, return the connection to the pool and clear it.
There is no guard against the count going negative. -/
def Session.release_connection (s : Session) : Session × List Ev :=
  let s1 : Session := { s with connection_holders := s.connection_holders - 1 }
  if s1.connection_holders = 0 then
    ({ s1 with conn := none }, [Ev.evReleaseLease, Ev.poolRelease s1.conn])
  else (s1, [Ev.evReleaseLease])

/-- The session invariant stated by the spec: a connection is leased iff
the holder count is positive, and the count is never negative. -/
def SInv (s : Session) : Prop :=
  (s.conn.isSome = true ↔ 0 < s.connection_holders) ∧ 0 ≤ s.connection_holders

/-- Run a sequence of lease operations (`true` = `acquire_connection`,
`false` = `release_connection`). -/
def runLease (s : Session) : List Bool → Session
  | [] => s
  | true :: rest => runLease (s.acquire_connection).2.1 rest
  | false :: rest => runLease (s.release_connection).1 rest

/-- Every prefix of the operation list keeps the running holder count
(started at `c`) positive before a release: no release ever outnumbers the
acquires before it. -/
def noDeficitB (c : Int) : List Bool → Bool
  | [] => true
  | true :: rest => noDeficitB (c + 1) rest
  | false :: rest => if c ≤ 0 then false else noDeficitB (c - 1) rest

/-- A balanced sequence of acquire/release operations: no prefix releases
more than was acquired, and the totals agree. -/
def BalancedB (l : List Bool) : Bool :=
  noDeficitB 0 l && (l.count true == l.count false)

/-- Project the error out of an `Except` result (for stating that an
operation raised). -/
def exceptErr {α : Type} : Except PyErr α → Option PyErr
  | Except.error e => some e
  | Except.ok _ => none

/-- `MySQLSession.fetchall`: compile, acquire a lease, open a cursor
(outside the `try` block!), then inside `try`: execute and fetch all rows,
wrapping each in a `Record`; `finally`: close the cursor and release the
lease.  `cursorOk` / `execOk` / `fetchOk` say whether the corresponding
driver call succeeds; `rows` is what the driver delivers. -/
def fetchall (q : Compiled) (cursorOk execOk fetchOk : Bool)
    (rows : List (List Value)) (s : Session) :
    Except PyErr (List Record) × Session × List Ev :=
  match s.acquire_connection with
  | (c, s1, evA) =>
    if cursorOk then
      if execOk then
        if fetchOk then
          match s1.release_connection with
          | (s2, evR) =>
            (Except.ok (rows.map (fun cells =>
                { row := some cells, result_columns := q.result_columns })), s2,
              evA ++ [Ev.cursorOpen c, Ev.cursorExec c q.sql, Ev.cursorClose] ++ evR)
        else
          match s1.release_connection with
          | (s2, evR) =>
            (Except.error PyErr.operationalError, s2,
              evA ++ [Ev.cursorOpen c, Ev.cursorExec c q.sql, Ev.cursorClose] ++ evR)
      else
        match s1.release_connection with
        | (s2, evR) =>
          (Except.error PyErr.operationalError, s2,
            evA ++ [Ev.cursorOpen c, Ev.cursorClose] ++ evR)
    else
      (Except.error PyErr.operationalError, s1, evA)

/-- `MySQLSession.fetchone`: same scoping as `fetchall`; the single row the
driver delivers may be `None` (`row?`), and whatever it is gets wrapped in
a `Record` unconditionally. -/
def fetchone (q : Compiled) (cursorOk execOk fetchOk : Bool)
    (row? : Option (List Value)) (s : Session) :
    Except PyErr Record × Session × List Ev :=
  match s.acquire_connection with
  | (c, s1, evA) =>
    if cursorOk then
      if execOk then
        if fetchOk then
          match s1.release_connection with
          | (s2, evR) =>
            (Except.ok { row := row?, result_columns := q.result_columns }, s2,
              evA ++ [Ev.cursorOpen c, Ev.cursorExec c q.sql, Ev.cursorClose] ++ evR)
        else
          match s1.release_connection with
          | (s2, evR) =>
            (Except.error PyErr.operationalError, s2,
              evA ++ [Ev.cursorOpen c, Ev.cursorExec c q.sql, Ev.cursorClose] ++ evR)
      else
        match s1.release_connection with
        | (s2, evR) =>
          (Except.error PyErr.operationalError, s2,
            evA ++ [Ev.cursorOpen c, Ev.cursorClose] ++ evR)
    else
      (Except.error PyErr.operationalError, s1, evA)

/-- `MySQLSession.execute`: compile, acquire, open a cursor (outside the
`try`), execute inside `try`, close and release in `finally`. -/
def execute (q : Compiled) (cursorOk execOk : Bool) (s : Session) :
    Except PyErr Unit × Session × List Ev :=
  match s.acquire_connection with
  | (c, s1, evA) =>
    if cursorOk then
      if execOk then
        match s1.release_connection with
        | (s2, evR) =>
          (Except.ok (), s2,
            evA ++ [Ev.cursorOpen c, Ev.cursorExec c q.sql, Ev.cursorClose] ++ evR)
      else
        match s1.release_connection with
        | (s2, evR) =>
          (Except.error PyErr.operationalError, s2,
            evA ++ [Ev.cursorOpen c, Ev.cursorClose] ++ evR)
    else
      (Except.error PyErr.operationalError, s1, evA)

/-- The `for item in values:` loop body of `executemany`, on one shared
cursor `c`: compile `query.values(item)` and execute it.  `execOks` lists
injected failures for successive executions; a missing entry means the
call succeeds.  The first failure aborts the loop. -/
def emLoop (compileOne : List Value → Compiled) (c : Nat) :
    List (List Value) → List Bool → Except PyErr Unit × List Ev
  | [], _ => (Except.ok (), [])
  | item :: rest, oks =>
      if oks.headD true then
        match emLoop compileOne c rest oks.tail with
        | (r, evs) => (r, Ev.cursorExec c (compileOne item).sql :: evs)
      else (Except.error PyErr.operationalError, [])

/-- `MySQLSession.executemany`: acquire one lease, open one cursor (outside
the `try`), run the loop inside `try`, close the cursor and release the
lease once in `finally`. -/
def executemany (compileOne : List Value → Compiled) (values : List (List Value))
    (cursorOk : Bool) (execOks : List Bool) (s : Session) :
    Except PyErr Unit × Session × List Ev :=
  match s.acquire_connection with
  | (c, s1, evA) =>
    if cursorOk then
      match emLoop compileOne c values execOks with
      | (res, evs) =>
        match s1.release_connection with
        | (s2, evR) =>
          (res, s2, evA ++ [Ev.cursorOpen c] ++ evs ++ [Ev.cursorClose] ++ evR)
    else
      (Except.error PyErr.operationalError, s1, evA)

/-- Lower-case hex digit for a nibble. -/
def hexChar (n : Nat) : Char :=
  if n < 10 then Char.ofNat (48 + n) else Char.ofNat (97 + (n - 10))

/-- Numeric value of a lower-case hex digit. -/
def hexVal (c : Char) : Nat :=
  if c.toNat ≤ 57 then c.toNat - 48 else c.toNat - 87

/-- Is this one of the 16 lower-case hex digit characters? -/
def isLowerHex (c : Char) : Bool :=
  (48 ≤ c.toNat && c.toNat ≤ 57) || (97 ≤ c.toNat && c.toNat ≤ 102)

/-- `str.replace("-", "_")` acting on one character. -/
def dashU (c : Char) : Char :=
  if c == '-' then '_' else c

/-- Fixed-width big-endian lower-case hex rendering of `n % 16 ^ width`. -/
def toHexFixed : Nat → Nat → List Char
  | 0, _ => []
  | w + 1, n => toHexFixed w (n / 16) ++ [hexChar (n % 16)]

/-- Decode a hex-digit list (left fold, most significant first). -/
def fromHex (l : List Char) : Nat :=
  l.foldl (fun acc c => acc * 16 + hexVal c) 0

/-- The canonical 8-4-4-4-12 form of `str(uuid.uuid4())` for the 128-bit
value `v`: 32 lower-case hex digits in five dash-separated groups. -/
def uuidCanonical (v : Nat) : List Char :=
  toHexFixed 8 (v / 16 ^ 24) ++ '-' ::
    (toHexFixed 4 (v / 16 ^ 20) ++ '-' ::
      (toHexFixed 4 (v / 16 ^ 16) ++ '-' ::
        (toHexFixed 4 (v / 16 ^ 12) ++ '-' :: toHexFixed 12 v)))

/-- The savepoint name built by `MySQLTransaction.start`:
`"STARLETTE_SAVEPOINT_" + str(uuid.uuid4()).replace("-", "_")`. -/
def pySavepointName (v : Nat) : String :=
  String.mk ("STARLETTE_SAVEPOINT_".data ++ (uuidCanonical v).map dashU)

/-- Letters, digits and underscore: the characters allowed in a bare SQL
identifier. -/
def isIdentChar (c : Char) : Bool :=
  c.isAlphanum || c == '_'

/-- Decode a savepoint name back to its uuid value by keeping only the
lower-case hex digits (the fixed prefix is upper case and underscores are
not hex). -/
def savepointDecode (s : String) : Nat :=
  fromHex (s.data.filter isLowerHex)

/-- `MySQLTransaction` state.  `conn` and `savepoint_name` are attributes
first assigned inside `start()` (hence `Option`).  The `G`-suffixed fields
are ghost history used only by the proofs: whether `start`, and
`commit`/`rollback`, have been called, whether this transaction's `start`
set `has_root_transaction`, and whether its termination cleared it. -/
structure Txn where
  is_root : Bool
  conn : Option Nat
  savepoint_name : Option String
  startedG : Bool
  termG : Bool
  setRootG : Bool
  clearedG : Bool
  deriving DecidableEq

/-- `MySQLTransaction.__init__`: only `is_root = False` is set. -/
def Txn.new : Txn :=
  { is_root := false, conn := none, savepoint_name := none,
    startedG := false, termG := false, setRootG := false, clearedG := false }

/-- A session together with every transaction object it has created
(indexed by creation order) and the uuid seed supply.  `rootOwner` is a
ghost copy of which transaction currently owns `has_root_transaction`. -/
structure World where
  sess : Session
  txns : List Txn
  nextUuid : Nat
  rootOwner : Option Nat
  deriving DecidableEq

/-- The world of a freshly constructed session. -/
def initWorld : World :=
  { sess := freshSession, txns := [], nextUuid := 0, rootOwner := none }

/-- One call into the session/transaction API.  `t` is the transaction's
creation index; the `Bool` fields inject failures of the external driver
calls the operation makes (`cursorOk` for `conn.cursor()`, `extOk` for the
BEGIN / COMMIT / ROLLBACK / savepoint statement). -/
inductive Op where
  | create : Op
  | start : Nat → Bool → Bool → Op
  | commit : Nat → Bool → Bool → Op
  | rollback : Nat → Bool → Bool → Op
  deriving DecidableEq

/-- `session.transaction()`: construct a new transaction object. -/
def txnCreate (w : World) : World × List Ev × Option PyErr :=
  ({ w with txns := w.txns ++ [Txn.new] }, [], none)

/-- `MySQLTransaction.start`: if no root transaction is open, become root
and set the session flag; acquire a lease; then either `conn.begin()`
(root) or generate a savepoint name and issue `SAVEPOINT <name>` on a
fresh cursor (non-root).  A failing driver call propagates after the flag,
lease and name assignments already made. -/
def txnStart (w : World) (t : Nat) (cursorOk extOk : Bool) :
    World × List Ev × Option PyErr :=
  match w.txns[t]? with
  | none => (w, [], some (PyErr.attributeError "transaction"))
  | some tx0 =>
    let becomesRoot : Bool := !w.sess.has_root_transaction
    let tx1 := if becomesRoot then { tx0 with is_root := true, setRootG := true } else tx0
    let sess1 := if becomesRoot then { w.sess with has_root_transaction := true } else w.sess
    let owner1 := if becomesRoot then some t else w.rootOwner
    match sess1.acquire_connection with
    | (c, sess2, evA) =>
      let tx2 := { tx1 with conn := some c, startedG := true }
      if tx2.is_root then
        let w2 := { w with sess := sess2, rootOwner := owner1, txns := w.txns.set t tx2 }
        if extOk then (w2, evA ++ [Ev.connBegin c], none)
        else (w2, evA, some PyErr.operationalError)
      else
        let sp := pySavepointName w.nextUuid
        let tx3 := { tx2 with savepoint_name := some sp }
        let w3 := { w with sess := sess2, rootOwner := owner1,
                           txns := w.txns.set t tx3, nextUuid := w.nextUuid + 1 }
        if cursorOk then
          if extOk then
            (w3, evA ++ [Ev.cursorOpen c, Ev.cursorExec c ("SAVEPOINT " ++ sp),
                         Ev.cursorClose], none)
          else
            (w3, evA ++ [Ev.cursorOpen c, Ev.cursorClose], some PyErr.operationalError)
        else
          (w3, evA, some PyErr.operationalError)

/-- `MySQLTransaction.commit`: root branch issues `conn.commit()` then
clears the flag; non-root branch issues `RELEASE SAVEPOINT <name>` through
a scoped cursor.  Only afterwards — and only if nothing raised — does the
trailing `release_connection()` run: there is no `try/finally` around the
branch bodies. -/
def txnCommit (w : World) (t : Nat) (cursorOk extOk : Bool) :
    World × List Ev × Option PyErr :=
  match w.txns[t]? with
  | none => (w, [], some (PyErr.attributeError "transaction"))
  | some tx0 =>
    if tx0.is_root then
      match tx0.conn with
      | none =>
          ({ w with txns := w.txns.set t { tx0 with termG := true } }, [],
            some (PyErr.attributeError "conn"))
      | some c =>
        if extOk then
          let tx1 := { tx0 with termG := true, clearedG := true }
          let sess1 := { w.sess with has_root_transaction := false }
          match sess1.release_connection with
          | (sess2, evR) =>
            ({ w with sess := sess2, rootOwner := none, txns := w.txns.set t tx1 },
              Ev.connCommit c :: evR, none)
        else
          ({ w with txns := w.txns.set t { tx0 with termG := true } }, [],
            some PyErr.operationalError)
    else
      match tx0.conn with
      | none =>
          ({ w with txns := w.txns.set t { tx0 with termG := true } }, [],
            some (PyErr.attributeError "conn"))
      | some c =>
        if cursorOk then
          match tx0.savepoint_name with
          | none =>
              ({ w with txns := w.txns.set t { tx0 with termG := true } },
                [Ev.cursorOpen c, Ev.cursorClose], some (PyErr.attributeError "savepoint_name"))
          | some sp =>
            if extOk then
              match w.sess.release_connection with
              | (sess2, evR) =>
                ({ w with sess := sess2, txns := w.txns.set t { tx0 with termG := true } },
                  [Ev.cursorOpen c, Ev.cursorExec c ("RELEASE SAVEPOINT " ++ sp),
                   Ev.cursorClose] ++ evR, none)
            else
              ({ w with txns := w.txns.set t { tx0 with termG := true } },
                [Ev.cursorOpen c, Ev.cursorClose], some PyErr.operationalError)
        else
          ({ w with txns := w.txns.set t { tx0 with termG := true } }, [],
            some PyErr.operationalError)

/-- `MySQLTransaction.rollback`: root branch issues `conn.rollback()` then
clears the flag; non-root branch issues `ROLLBACK TO SAVEPOINT <name>`.
Same missing `try/finally` as `commit`. -/
def txnRollback (w : World) (t : Nat) (cursorOk extOk : Bool) :
    World × List Ev × Option PyErr :=
  match w.txns[t]? with
  | none => (w, [], some (PyErr.attributeError "transaction"))
  | some tx0 =>
    if tx0.is_root then
      match tx0.conn with
      | none =>
          ({ w with txns := w.txns.set t { tx0 with termG := true } }, [],
            some (PyErr.attributeError "conn"))
      | some c =>
        if extOk then
          let tx1 := { tx0 with termG := true, clearedG := true }
          let sess1 := { w.sess with has_root_transaction := false }
          match sess1.release_connection with
          | (sess2, evR) =>
            ({ w with sess := sess2, rootOwner := none, txns := w.txns.set t tx1 },
              Ev.connRollback c :: evR, none)
        else
          ({ w with txns := w.txns.set t { tx0 with termG := true } }, [],
            some PyErr.operationalError)
    else
      match tx0.conn with
      | none =>
          ({ w with txns := w.txns.set t { tx0 with termG := true } }, [],
            some (PyErr.attributeError "conn"))
      | some c =>
        if cursorOk then
          match tx0.savepoint_name with
          | none =>
              ({ w with txns := w.txns.set t { tx0 with termG := true } },
                [Ev.cursorOpen c, Ev.cursorClose], some (PyErr.attributeError "savepoint_name"))
          | some sp =>
            if extOk then
              match w.sess.release_connection with
              | (sess2, evR) =>
                ({ w with sess := sess2, txns := w.txns.set t { tx0 with termG := true } },
                  [Ev.cursorOpen c, Ev.cursorExec c ("ROLLBACK TO SAVEPOINT " ++ sp),
                   Ev.cursorClose] ++ evR, none)
            else
              ({ w with txns := w.txns.set t { tx0 with termG := true } },
                [Ev.cursorOpen c, Ev.cursorClose], some PyErr.operationalError)
        else
          ({ w with txns := w.txns.set t { tx0 with termG := true } }, [],
            some PyErr.operationalError)

/-- Dispatch one `Op`. -/
def stepOp (w : World) : Op → World × List Ev × Option PyErr
  | Op.create => txnCreate w
  | Op.start t cu e => txnStart w t cu e
  | Op.commit t cu e => txnCommit w t cu e
  | Op.rollback t cu e => txnRollback w t cu e

/-- Run a call sequence, continuing past raised exceptions (the caller
catches them); mutations made before a raise persist. -/
def runOps (w : World) : List Op → World
  | [] => w
  | o :: l => runOps (stepOp w o).1 l

/-- The per-call outcomes of a run (`none` = returned normally). -/
def runErrs (w : World) : List Op → List (Option PyErr)
  | [] => []
  | o :: l => (stepOp w o).2.2 :: runErrs (stepOp w o).1 l

/-- Well-formed call sequences: every operation addresses a transaction
already created, each transaction is started at most once, and
committed/rolled back at most once and only after being started.
`n` counts created transactions, `st`/`tm` the started/terminated ones. -/
def WFB : Nat → List Nat → List Nat → List Op → Bool
  | _, _, _, [] => true
  | n, st, tm, Op.create :: l => WFB (n + 1) st tm l
  | n, st, tm, Op.start t _ _ :: l =>
      decide (t < n) && !(st.contains t) && WFB n (t :: st) tm l
  | n, st, tm, Op.commit t _ _ :: l =>
      decide (t < n) && st.contains t && !(tm.contains t) && WFB n st (t :: tm) l
  | n, st, tm, Op.rollback t _ _ :: l =>
      decide (t < n) && st.contains t && !(tm.contains t) && WFB n st (t :: tm) l

/-- Well-formed from the initial world. -/
def WF (l : List Op) : Bool :=
  WFB 0 [] [] l

/-- Pointwise transaction invariant: `is_root` marks exactly the
transactions whose `start` ran while the flag was down; a transaction that
cleared the flag set it and has terminated; setters have started; an
unstarted transaction is untouched; a started one has its connection. -/
def TxnOk (tx : Txn) : Prop :=
  tx.is_root = tx.setRootG ∧
  (tx.clearedG = true → tx.setRootG = true ∧ tx.termG = true) ∧
  (tx.setRootG = true → tx.startedG = true) ∧
  (tx.startedG = false → tx = Txn.new) ∧
  (tx.startedG = true → tx.conn.isSome = true)

/-- World invariant: every transaction is `TxnOk`; the session flag is up
exactly while some transaction owns it; the ghost owner points at the
unique transaction that set the flag and has not cleared it. -/
def InvW (w : World) : Prop :=
  (∀ (i : Nat) (tx : Txn), w.txns[i]? = some tx → TxnOk tx) ∧
  w.sess.has_root_transaction = w.rootOwner.isSome ∧
  (∀ t : Nat, w.rootOwner = some t →
      ∃ tx, w.txns[t]? = some tx ∧ tx.setRootG = true ∧ tx.clearedG = false) ∧
  (∀ (i : Nat) (tx : Txn), w.txns[i]? = some tx → tx.setRootG = true → tx.clearedG = false →
      w.rootOwner = some i)

/-- Coupling of the well-formedness bookkeeping with the world: the ghost
started/terminated marks agree with the `st`/`tm` lists. -/
def LinkInv (n : Nat) (st tm : List Nat) (w : World) : Prop :=
  w.txns.length = n ∧
  (∀ t, t ∈ st → t < n) ∧
  (∀ t, t ∈ tm → t < n) ∧
  (∀ (t : Nat) (tx : Txn), w.txns[t]? = some tx →
      tx.startedG = st.contains t ∧ tx.termG = tm.contains t) ∧
  InvW w

/-- An open root transaction: marked root, started, not yet terminated. -/
def openRootB (tx : Txn) : Bool :=
  tx.is_root && tx.startedG && !tx.termG

/-- Event classifiers for counting. -/
def evIsExec : Ev → Bool
  | Ev.cursorExec _ _ => true
  | _ => false

def evIsAcqLease : Ev → Bool
  | Ev.evAcquireLease => true
  | _ => false

def evIsRelLease : Ev → Bool
  | Ev.evReleaseLease => true
  | _ => false

/-- Sample type converter modelling `Integer().python_type` (`int(raw)`)
on the values a demo needs. -/
def intConv : Value → Value
  | Value.vInt n => Value.vInt n
  | Value.vStr s => Value.vInt s.length
  | Value.vNone => Value.vInt 0

/-- Sample type converter modelling `String().python_type` (`str(raw)`). -/
def strConv : Value → Value
  | Value.vStr s => Value.vStr s
  | Value.vInt n => Value.vStr (toString n)
  | Value.vNone => Value.vStr "None"

/-- The spec's demo record: row `(1, "alice")` with columns
`[("id", int), ("name", str)]`. -/
def rAlice : Record :=
  { row := some [Value.vInt 1, Value.vStr "alice"],
    result_columns := [{ name := "id", python_type := intConv },
                       { name := "name", python_type := strConv }] }

/-- A compiled demo query with no result columns. -/
def qDemo : Compiled :=
  { sql := "SELECT 1", result_columns := [] }

/-- World after creating one transaction that was never started. -/
def wCreated : World :=
  runOps initWorld [Op.create]

/-- World after creating and starting one (root) transaction. -/
def wRootStarted : World :=
  runOps initWorld [Op.create, Op.start 0 true true]

/-- World after also creating and starting a nested transaction. -/
def wNestedStarted : World :=
  runOps initWorld [Op.create, Op.start 0 true true, Op.create, Op.start 1 true true]

/-- World with a started root transaction plus a second, not yet started,
transaction object. -/
def wRootPlusCreated : World :=
  runOps initWorld [Op.create, Op.start 0 true true, Op.create]

/-- World after a root transaction ran to a successful commit. -/
def wCommitted : World :=
  runOps initWorld [Op.create, Op.start 0 true true, Op.commit 0 true true]

/-- The double-commit trace that lets an old root clear a flag set by a
newer root: `commit 0` is called a second time after transaction 1 has
become the root. -/
def doubleCommitTrace : List Op :=
  [Op.create, Op.start 0 true true, Op.commit 0 true true,
   Op.create, Op.start 1 true true, Op.commit 0 true true,
   Op.create, Op.start 2 true true]

/-- A well-formed nested demo trace. -/
def demoTrace : List Op :=
  [Op.create, Op.start 0 true true, Op.create, Op.start 1 true true,
   Op.rollback 1 true true, Op.rollback 0 true true]

end Databases

namespace Databases

/-! ### Session lease lemmas -/

/-- `acquire_connection` increments the holder count by one. -/
theorem acquire_holders (s : Session) :
    (s.acquire_connection).2.1.connection_holders = s.connection_holders + 1 := by
  unfold Session.acquire_connection
  cases hc : s.conn <;> simp [hc]

/-- `acquire_connection` leaves a leased connection behind. -/
theorem acquire_isSome (s : Session) :
    (s.acquire_connection).2.1.conn.isSome = true := by
  unfold Session.acquire_connection
  cases hc : s.conn <;> simp [hc]

/-- `acquire_connection` stores the connection it returns. -/
theorem acquire_conn_eq (s : Session) :
    (s.acquire_connection).2.1.conn = some (s.acquire_connection).1 := by
  unfold Session.acquire_connection
  cases hc : s.conn <;> simp [hc]

/-- `acquire_connection` does not touch the root-transaction flag. -/
theorem acquire_flag (s : Session) :
    (s.acquire_connection).2.1.has_root_transaction = s.has_root_transaction := by
  unfold Session.acquire_connection
  cases hc : s.conn <;> simp [hc]

/-- The events of one `acquire_connection` call: one lease marker, and a
pool acquisition iff no connection was leased. -/
theorem acquire_evs (s : Session) :
    (s.acquire_connection).2.2 = [Ev.evAcquireLease] ∨
    (s.acquire_connection).2.2 = [Ev.evAcquireLease, Ev.poolAcquire s.nextConn] := by
  unfold Session.acquire_connection
  cases hc : s.conn <;> simp [hc]

/-- `release_connection` decrements the holder count by one. -/
theorem release_holders (s : Session) :
    (s.release_connection).1.connection_holders = s.connection_holders - 1 := by
  unfold Session.release_connection
  by_cases h : s.connection_holders - 1 = 0 <;> simp [h]

/-- `release_connection` clears the connection exactly when the count
reaches zero. -/
theorem release_conn (s : Session) :
    (s.connection_holders - 1 = 0 → (s.release_connection).1.conn = none) ∧
    (s.connection_holders - 1 ≠ 0 → (s.release_connection).1.conn = s.conn) := by
  unfold Session.release_connection
  constructor <;> intro h <;> simp [h]

/-- `release_connection` does not touch the root-transaction flag. -/
theorem release_flag (s : Session) :
    (s.release_connection).1.has_root_transaction = s.has_root_transaction := by
  unfold Session.release_connection
  by_cases h : s.connection_holders - 1 = 0 <;> simp [h]

/-- The events of one `release_connection` call: one lease marker, and a
pool release iff the count reached zero. -/
theorem release_evs (s : Session) :
    (s.release_connection).2 = [Ev.evReleaseLease] ∨
    (s.release_connection).2 = [Ev.evReleaseLease, Ev.poolRelease s.conn] := by
  unfold Session.release_connection
  by_cases h : s.connection_holders - 1 = 0 <;> simp [h]

end Databases

namespace Databases

/-! ### C2: release_connection with no prior acquire -/

/-- C2 counterexample: on a fresh session (lease count 0),
`release_connection` returns normally — its only effects are the decrement
to `-1` (below zero) and the lease marker event; no error of any kind is
raised, contrary to the claimed loud `LeaseImbalance` failure. -/
theorem c2_release_at_zero_goes_negative :
    (freshSession.release_connection).1.connection_holders = -1 ∧
    (freshSession.release_connection).1.conn = none ∧
    (freshSession.release_connection).2 = [Ev.evReleaseLease] := by
  decide

/-- C2 (amended): `release_connection` performs no imbalance check at all:
called when `lease_count` is already `0` it silently decrements the counter
to `-1`, leaves the (absent) connection untouched, and raises nothing. -/
theorem c2_release_unguarded (s : Session) (h : s.connection_holders = 0) :
    (s.release_connection).1.connection_holders = -1 ∧
    (s.release_connection).1.conn = s.conn ∧
    (s.release_connection).2 = [Ev.evReleaseLease] := by
  unfold Session.release_connection
  rw [h]
  norm_num

/-- Witness for `c2_release_unguarded` at the fresh session. -/
theorem c2_release_unguarded_witness :
    freshSession.connection_holders = 0 ∧
    (freshSession.release_connection).1.connection_holders = -1 :=
  ⟨by decide, (c2_release_unguarded freshSession (by decide)).1⟩

/-! ### C4: the lease invariant -/

/-- Running a deficit-free lease sequence preserves the session invariant
and moves the holder count by (acquires − releases). -/
theorem runLease_inv : ∀ (l : List Bool) (s : Session), SInv s →
    noDeficitB s.connection_holders l = true →
    SInv (runLease s l) ∧
      (runLease s l).connection_holders =
        s.connection_holders + (l.count true : Int) - (l.count false : Int) := by
  intro l
  induction l with
  | nil =>
      intro s hs _
      refine ⟨hs, by simp [runLease]⟩
  | cons b rest ih =>
      intro s hs hnd
      cases b with
      | true =>
          have hstep : SInv (s.acquire_connection).2.1 := by
            obtain ⟨hiff, hge⟩ := hs
            refine ⟨?_, ?_⟩
            · rw [acquire_isSome, acquire_holders]
              constructor
              · intro _; omega
              · intro _; rfl
            · rw [acquire_holders]; omega
          have hnd2 : noDeficitB (s.acquire_connection).2.1.connection_holders rest = true := by
            rw [acquire_holders]
            simpa [noDeficitB] using hnd
          obtain ⟨h1, h2⟩ := ih (s.acquire_connection).2.1 hstep hnd2
          refine ⟨by simpa [runLease] using h1, ?_⟩
          have : (runLease s (true :: rest)) = runLease (s.acquire_connection).2.1 rest := by
            simp [runLease]
          rw [this, h2, acquire_holders]
          simp [List.count_cons]
          omega
      | false =>
          simp only [noDeficitB] at hnd
          by_cases hc : s.connection_holders ≤ 0
          · simp [hc] at hnd
          · simp only [hc, if_false] at hnd
            have hpos : 0 < s.connection_holders := by omega
            have hstep : SInv (s.release_connection).1 := by
              obtain ⟨hiff, hge⟩ := hs
              refine ⟨?_, ?_⟩
              · rw [release_holders]
                by_cases hz : s.connection_holders - 1 = 0
                · rw [(release_conn s).1 hz]
                  simp
                  omega
                · rw [(release_conn s).2 hz]
                  constructor
                  · intro _; omega
                  · intro _; exact hiff.mpr hpos
              · rw [release_holders]; omega
            have hnd2 : noDeficitB (s.release_connection).1.connection_holders rest = true := by
              rw [release_holders]; exact hnd
            obtain ⟨h1, h2⟩ := ih (s.release_connection).1 hstep hnd2
            refine ⟨by simpa [runLease] using h1, ?_⟩
            have : (runLease s (false :: rest)) = runLease (s.release_connection).1 rest := by
              simp [runLease]
            rw [this, h2, release_holders]
            simp [List.count_cons]
            omega

/-- C4: the invariant `leased_connection is not None iff lease_count > 0`
(with a non-negative count) is preserved by `acquire_connection`
unconditionally and by `release_connection` whenever it is paired with an
earlier acquire (positive count); and any balanced acquire/release
sequence run from a fresh session ends with `lease_count = 0` and no
leased connection. -/
theorem c4_lease_invariant :
    (∀ s : Session, SInv s → SInv (s.acquire_connection).2.1) ∧
    (∀ s : Session, SInv s → 0 < s.connection_holders → SInv (s.release_connection).1) ∧
    (∀ l : List Bool, BalancedB l = true →
        (runLease freshSession l).connection_holders = 0 ∧
        (runLease freshSession l).conn = none) := by
  refine ⟨?_, ?_, ?_⟩
  · intro s hs
    obtain ⟨hiff, hge⟩ := hs
    refine ⟨?_, ?_⟩
    · rw [acquire_isSome, acquire_holders]
      constructor
      · intro _; omega
      · intro _; rfl
    · rw [acquire_holders]; omega
  · intro s hs hpos
    obtain ⟨hiff, hge⟩ := hs
    refine ⟨?_, ?_⟩
    · rw [release_holders]
      by_cases hz : s.connection_holders - 1 = 0
      · rw [(release_conn s).1 hz]
        simp
        omega
      · rw [(release_conn s).2 hz]
        constructor
        · intro _; omega
        · intro _; exact hiff.mpr hpos
    · rw [release_holders]; omega
  · intro l hbal
    have hfresh : SInv freshSession := by
      constructor
      · constructor
        · intro h; simp [freshSession] at h
        · intro h; simp [freshSession] at h
      · simp [freshSession]
    obtain ⟨hnd, hcnt⟩ : noDeficitB 0 l = true ∧ l.count true = l.count false := by
      unfold BalancedB at hbal
      constructor
      · exact (Bool.and_eq_true _ _ |>.mp hbal).1
      · have := (Bool.and_eq_true _ _ |>.mp hbal).2
        exact Nat.beq_eq_true_eq _ _ |>.mp this
    have hnd0 : noDeficitB freshSession.connection_holders l = true := by
      simpa [freshSession] using hnd
    obtain ⟨hinv, hhold⟩ := runLease_inv l freshSession hfresh hnd0
    have hz : (runLease freshSession l).connection_holders = 0 := by
      rw [hhold]
      simp [freshSession, hcnt]
    refine ⟨hz, ?_⟩
    obtain ⟨hiff, _⟩ := hinv
    have : (runLease freshSession l).conn.isSome = false := by
      by_contra habs
      have hsome : (runLease freshSession l).conn.isSome = true := by
        cases h : (runLease freshSession l).conn.isSome
        · exact absurd h habs
        · rfl
      have := hiff.mp hsome
      omega
    cases hco : (runLease freshSession l).conn
    · rfl
    · rw [hco] at this
      simp at this

/-- Witness for `c4_lease_invariant`: the fresh session satisfies the
invariant, acquiring preserves it, and the balanced sequence
acquire-acquire-release-release lands back on zero holders and no lease. -/
theorem c4_lease_invariant_witness :
    (SInv freshSession ∧ SInv (freshSession.acquire_connection).2.1) ∧
    (BalancedB [true, true, false, false] = true ∧
      (runLease freshSession [true, true, false, false]).connection_holders = 0 ∧
      (runLease freshSession [true, true, false, false]).conn = none) := by
  constructor
  · have h0 : SInv freshSession := by
      constructor
      · simp [freshSession]
      · simp [freshSession]
    exact ⟨h0, c4_lease_invariant.1 freshSession h0⟩
  · refine ⟨by decide, ?_, ?_⟩
    · exact (c4_lease_invariant.2.2 [true, true, false, false] (by decide)).1
    · exact (c4_lease_invariant.2.2 [true, true, false, false] (by decide)).2

end Databases

namespace Databases

/-! ### C9: Record field lookup -/

/-- The column map has no entry for `key` iff no descriptor bears that
name. -/
theorem columnMapLookupAux_none_iff (key : String) :
    ∀ (cols : List ResultColumn) (i : Nat),
      columnMapLookupAux key cols i = none ↔ ∀ c ∈ cols, c.name ≠ key := by
  intro cols
  induction cols with
  | nil => intro i; simp [columnMapLookupAux]
  | cons c rest ih =>
      intro i
      simp only [columnMapLookupAux]
      cases h2 : columnMapLookupAux key rest (i + 1) with
      | some pr =>
          constructor
          · intro h; exact absurd h (by simp)
          · intro hall
            exfalso
            have : columnMapLookupAux key rest (i + 1) = none :=
              (ih (i + 1)).mpr (fun d hd => hall d (List.mem_cons.mpr (Or.inr hd)))
            rw [h2] at this
            exact absurd this (by simp)
      | none =>
          by_cases hc : c.name == key
          · have hceq : c.name = key := by simpa using hc
            simp only [hc, if_true]
            constructor
            · intro h; exact absurd h (by simp)
            · intro hall
              exact absurd hceq (hall c (List.mem_cons.mpr (Or.inl rfl)))
          · have hcne : c.name ≠ key := by simpa using hc
            simp only [hc, if_false]
            constructor
            · intro _
              intro d hd
              rcases List.mem_cons.mp hd with h | h
              · rw [h]; exact hcne
              · exact (ih (i + 1)).mp h2 d h
            · intro _; rfl

/-- A successful column-map lookup returns a descriptor bearing the looked
up name, drawn from the descriptor list. -/
theorem columnMapLookupAux_some (key : String) :
    ∀ (cols : List ResultColumn) (i j : Nat) (c : ResultColumn),
      columnMapLookupAux key cols i = some (j, c) → c.name = key ∧ c ∈ cols := by
  intro cols
  induction cols with
  | nil => intro i j c h; simp [columnMapLookupAux] at h
  | cons d rest ih =>
      intro i j c h
      simp only [columnMapLookupAux] at h
      cases h2 : columnMapLookupAux key rest (i + 1) with
      | some pr =>
          rw [h2] at h
          have hpr : pr = (j, c) := by
            simpa using h
          rw [hpr] at h2
          obtain ⟨hn, hm⟩ := ih (i + 1) j c h2
          exact ⟨hn, List.mem_cons.mpr (Or.inr hm)⟩
      | none =>
          rw [h2] at h
          by_cases hc : d.name == key
          · simp only [hc, if_true] at h
            have hdc : d = c := by
              have := congrArg (fun p => Prod.snd <$> p) h
              simpa using this
            refine ⟨?_, List.mem_cons.mpr (Or.inl hdc.symm)⟩
            rw [← hdc]
            simpa using hc
          · simp only [hc, if_false] at h
            exact absurd h (by simp)

/-- C9: `Record` field lookup resolves the name through the column map to
a position and descriptor and returns the descriptor's conversion applied
to the raw cell at that position; and the lookup fails with `KeyError`
exactly when no column descriptor bears the name. -/
theorem c9_record_field_lookup (r : Record) (key : String) :
    (∀ (i : Nat) (col : ResultColumn) (cells : List Value),
        columnMapLookup r.result_columns key = some (i, col) →
        r.row = some cells →
        ∀ h : i < cells.length,
        r.getItem key = Except.ok (col.python_type (cells.get ⟨i, h⟩))) ∧
    (r.getItem key = Except.error (PyErr.keyError key) ↔
        ∀ col ∈ r.result_columns, col.name ≠ key) := by
  constructor
  · intro i col cells hlook hrow h
    unfold Record.getItem
    rw [hlook, hrow]
    dsimp only
    rw [List.get?_eq_getElem?, List.getElem?_eq_getElem h]
    rfl
  · constructor
    · intro habs
      unfold Record.getItem at habs
      cases hlook : columnMapLookup r.result_columns key with
      | none => exact (columnMapLookupAux_none_iff key r.result_columns 0).mp hlook
      | some pr =>
          exfalso
          obtain ⟨j, c⟩ := pr
          rw [hlook] at habs
          cases hrow : r.row with
          | none => rw [hrow] at habs; simp at habs
          | some cells =>
              rw [hrow] at habs
              dsimp only at habs
              cases hcell : cells.get? j with
              | none => rw [hcell] at habs; simp at habs
              | some raw => rw [hcell] at habs; simp at habs
    · intro hall
      unfold Record.getItem
      have : columnMapLookup r.result_columns key = none :=
        (columnMapLookupAux_none_iff key r.result_columns 0).mpr hall
      rw [this]

/-- Witness for `c9_record_field_lookup` on the spec's example row
`(1, "alice")` with columns `[("id", int), ("name", str)]`. -/
theorem c9_record_field_lookup_witness :
    rAlice.getItem "name" = Except.ok (Value.vStr "alice") ∧
    rAlice.getItem "missing" = Except.error (PyErr.keyError "missing") := by
  constructor
  · exact (c9_record_field_lookup rAlice "name").1 1
      { name := "name", python_type := strConv }
      [Value.vInt 1, Value.vStr "alice"] rfl rfl (by decide)
  · exact (c9_record_field_lookup rAlice "missing").2.mpr (by
      intro col hcol
      simp only [rAlice] at hcol
      rcases List.mem_cons.mp hcol with h | h
      · rw [h]; decide
      · rcases List.mem_cons.mp h with h2 | h2
        · rw [h2]; decide
        · simp at h2)

/-! ### C10: fetch_one wraps whatever the cursor returned -/

/-- C10: with the driver calls succeeding, `fetchone` wraps whatever row
the cursor delivered — including `None` for an empty result set — in a
`Record` and returns it without raising; the missing row only surfaces
when a field lookup on that `Record` runs, which fails for every key. -/
theorem c10_fetchone_wraps_any_row (q : Compiled) (s : Session) :
    (∀ row? : Option (List Value),
        (fetchone q true true true row? s).1 =
          Except.ok { row := row?, result_columns := q.result_columns }) ∧
    (∀ key : String, ∃ e,
        Record.getItem { row := none, result_columns := q.result_columns } key =
          Except.error e) := by
  constructor
  · intro row?
    rfl
  · intro key
    cases hlook : columnMapLookup q.result_columns key with
    | none =>
        refine ⟨PyErr.keyError key, ?_⟩
        unfold Record.getItem
        rw [hlook]
    | some pr =>
        obtain ⟨j, c⟩ := pr
        refine ⟨PyErr.typeError, ?_⟩
        unfold Record.getItem
        rw [hlook]

end Databases

namespace Databases

/-! ### C5 and C1: leaked leases on error paths -/

/-- C5: the cursor is created between `acquire_connection()` and the `try`
block, so when `conn.cursor()` raises, each of `fetchall`, `fetchone` and
`execute` propagates the error with the lease still held: the holder count
stays at 1 and no release (and no cursor close) ever happens. -/
theorem c5_cursor_creation_leaks_lease :
    exceptErr (fetchall qDemo false true true [] freshSession).1 = some PyErr.operationalError ∧
    (fetchall qDemo false true true [] freshSession).2.1.connection_holders = 1 ∧
    (fetchall qDemo false true true [] freshSession).2.2 = [Ev.evAcquireLease, Ev.poolAcquire 0] ∧
    exceptErr (fetchone qDemo false true true none freshSession).1 = some PyErr.operationalError ∧
    (fetchone qDemo false true true none freshSession).2.1.connection_holders = 1 ∧
    List.countP evIsRelLease (fetchone qDemo false true true none freshSession).2.2 = 0 ∧
    exceptErr (execute qDemo false true freshSession).1 = some PyErr.operationalError ∧
    (execute qDemo false true freshSession).2.1.connection_holders = 1 ∧
    List.countP evIsRelLease (execute qDemo false true freshSession).2.2 = 0 := by
  decide

/-- C1: `commit()` and `rollback()` have no `try/finally` around their
termination work, so when the native COMMIT/ROLLBACK (root) or the
`RELEASE SAVEPOINT` statement (nested) raises, `release_connection()` is
never reached: the holder count stays where it was and no release event is
emitted (for a failed root commit the session flag also stays set). -/
theorem c1_termination_error_leaks_lease :
    (txnCommit wRootStarted 0 true false).2.2 = some PyErr.operationalError ∧
    (txnCommit wRootStarted 0 true false).1.sess.connection_holders = 1 ∧
    List.countP evIsRelLease (txnCommit wRootStarted 0 true false).2.1 = 0 ∧
    (txnCommit wRootStarted 0 true false).1.sess.has_root_transaction = true ∧
    (txnRollback wRootStarted 0 true false).2.2 = some PyErr.operationalError ∧
    (txnRollback wRootStarted 0 true false).1.sess.connection_holders = 1 ∧
    List.countP evIsRelLease (txnRollback wRootStarted 0 true false).2.1 = 0 ∧
    (txnCommit wNestedStarted 1 true false).2.2 = some PyErr.operationalError ∧
    (txnCommit wNestedStarted 1 true false).1.sess.connection_holders = 2 ∧
    List.countP evIsRelLease (txnCommit wNestedStarted 1 true false).2.1 = 0 ∧
    (txnRollback wNestedStarted 1 true false).2.2 = some PyErr.operationalError ∧
    (txnRollback wNestedStarted 1 true false).1.sess.connection_holders = 2 := by
  decide

/-! ### C6: terminating twice, or before start -/

/-- C6 counterexample: a second `commit()` on an already committed (root)
transaction raises nothing — it re-issues the native COMMIT and releases
the lease again, driving the holder count to `-1`. -/
theorem c6_double_commit_silently_succeeds :
    (txnCommit wCommitted 0 true true).2.2 = none ∧
    (txnCommit wCommitted 0 true true).1.sess.connection_holders = -1 := by
  decide

/-- C6 (amended): committing or rolling back a transaction that was never
started does fail fast — reading the unset `self.conn` raises an
`AttributeError` and the session is untouched — but a second
`commit()`/`rollback()` on a terminated transaction raises no usage error:
it silently repeats the termination work and releases the lease again
(holder count `-1` after a double commit). -/
theorem c6_no_usage_errors :
    (∀ (w : World) (t : Nat) (tx : Txn) (cu e : Bool),
        w.txns[t]? = some tx → tx.conn = none → tx.is_root = false →
        (txnCommit w t cu e).2.2 = some (PyErr.attributeError "conn") ∧
        (txnRollback w t cu e).2.2 = some (PyErr.attributeError "conn") ∧
        (txnCommit w t cu e).1.sess = w.sess) ∧
    ((txnCommit wCommitted 0 true true).2.2 = none ∧
      (txnCommit wCommitted 0 true true).1.sess.connection_holders = -1) := by
  constructor
  · intro w t tx cu e htx hconn hroot
    refine ⟨?_, ?_, ?_⟩
    · unfold txnCommit
      rw [htx]
      dsimp only
      rw [hroot, hconn]
      rfl
    · unfold txnRollback
      rw [htx]
      dsimp only
      rw [hroot, hconn]
      rfl
    · unfold txnCommit
      rw [htx]
      dsimp only
      rw [hroot, hconn]
      rfl
  · decide

/-- Witness for `c6_no_usage_errors`: committing the never-started
transaction of `wCreated` raises the `AttributeError`. -/
theorem c6_no_usage_errors_witness :
    (txnCommit wCreated 0 true true).2.2 = some (PyErr.attributeError "conn") :=
  ((c6_no_usage_errors.1 wCreated 0 Txn.new true true (by decide) rfl rfl)).1

end Databases

namespace Databases

/-! ### C7: executemany -/

/-- With no injected failures, the `executemany` loop executes one
compiled statement per value set on the shared cursor and succeeds. -/
theorem emLoop_all_ok (compileOne : List Value → Compiled) (c : Nat) :
    ∀ values : List (List Value),
      emLoop compileOne c values [] =
        (Except.ok (), values.map (fun item => Ev.cursorExec c (compileOne item).sql)) := by
  intro values
  induction values with
  | nil => rfl
  | cons item rest ih => simp [emLoop, ih]

/-- Cursor executions in a mapped execution list count one per item. -/
theorem countP_exec_map (compileOne : List Value → Compiled) (c : Nat)
    (values : List (List Value)) :
    List.countP evIsExec
      (values.map (fun item => Ev.cursorExec c (compileOne item).sql)) = values.length := by
  rw [List.countP_map]
  rw [List.countP_eq_length]
  intro a _
  rfl

/-- C7: with every driver call succeeding, `executemany` over `N` value
sets returns normally having acquired the lease once, opened one cursor,
issued exactly `N` executions on it, closed the cursor once, and released
the lease exactly once after the last iteration; the holder count ends
where it started.  Instantiating `values := []` gives the empty-sequence
case: zero executions with the lease still acquired and released once. -/
theorem c7_executemany_once_per_value (compileOne : List Value → Compiled)
    (values : List (List Value)) (s : Session) :
    (executemany compileOne values true [] s).1 = Except.ok () ∧
    (executemany compileOne values true [] s).2.1.connection_holders = s.connection_holders ∧
    (executemany compileOne values true [] s).2.2 =
      (s.acquire_connection).2.2 ++ [Ev.cursorOpen (s.acquire_connection).1] ++
        values.map (fun item => Ev.cursorExec (s.acquire_connection).1 (compileOne item).sql) ++
        [Ev.cursorClose] ++ ((s.acquire_connection).2.1.release_connection).2 ∧
    List.countP evIsExec (executemany compileOne values true [] s).2.2 = values.length ∧
    List.countP evIsAcqLease (executemany compileOne values true [] s).2.2 = 1 ∧
    List.countP evIsRelLease (executemany compileOne values true [] s).2.2 = 1 := by
  rcases hA : s.acquire_connection with ⟨c, s1, evA⟩
  rcases hR : s1.release_connection with ⟨s2, evR⟩
  have hmain : executemany compileOne values true [] s =
      (Except.ok (), s2,
        evA ++ [Ev.cursorOpen c] ++
          values.map (fun item => Ev.cursorExec c (compileOne item).sql) ++
          [Ev.cursorClose] ++ evR) := by
    unfold executemany
    rw [hA]
    dsimp only
    rw [emLoop_all_ok]
    dsimp only
    rw [hR]
    rfl
  have hevA : evA = [Ev.evAcquireLease] ∨ evA = [Ev.evAcquireLease, Ev.poolAcquire s.nextConn] := by
    have h := acquire_evs s
    rw [hA] at h
    exact h
  have hevR : evR = [Ev.evReleaseLease] ∨ evR = [Ev.evReleaseLease, Ev.poolRelease s1.conn] := by
    have h := release_evs s1
    rw [hR] at h
    exact h
  have hh1 : s1.connection_holders = s.connection_holders + 1 := by
    have h := acquire_holders s
    rw [hA] at h
    exact h
  have hh2 : s2.connection_holders = s1.connection_holders - 1 := by
    have h := release_holders s1
    rw [hR] at h
    exact h
  refine ⟨?_, ?_, ?_, ?_, ?_, ?_⟩
  · rw [hmain]
  · rw [hmain]
    dsimp only
    omega
  · simp only [hmain, hA, hR]
  · rw [hmain]
    dsimp only
    rcases hevA with h | h <;> rcases hevR with h2 | h2 <;>
      simp [h, h2, List.countP_append, countP_exec_map, evIsExec, List.countP_cons]
  · rw [hmain]
    dsimp only
    have hmap : List.countP evIsAcqLease
        (values.map (fun item => Ev.cursorExec c (compileOne item).sql)) = 0 := by
      rw [List.countP_map]
      rw [List.countP_eq_zero]
      intro a _
      simp [Function.comp, evIsAcqLease]
    rcases hevA with h | h <;> rcases hevR with h2 | h2 <;>
      simp [h, h2, List.countP_append, hmap, evIsAcqLease, List.countP_cons]
  · rw [hmain]
    dsimp only
    have hmap : List.countP evIsRelLease
        (values.map (fun item => Ev.cursorExec c (compileOne item).sql)) = 0 := by
      rw [List.countP_map]
      rw [List.countP_eq_zero]
      intro a _
      simp [Function.comp, evIsRelLease]
    rcases hevA with h | h <;> rcases hevR with h2 | h2 <;>
      simp [h, h2, List.countP_append, hmap, evIsRelLease, List.countP_cons]

end Databases

namespace Databases

/-! ### C8: savepoint names and start() behaviour -/

/-- The sixteen hex digit characters: untouched by the dash replacement,
lower-case hex, valid identifier characters, and decoded by `hexVal`. -/
theorem hexChar_facts : ∀ k, k < 16 →
    dashU (hexChar k) = hexChar k ∧ isLowerHex (hexChar k) = true ∧
    isIdentChar (hexChar k) = true ∧ hexVal (hexChar k) = k := by
  decide

/-- Every character of a fixed-width hex rendering is a hex digit. -/
theorem toHexFixed_mem : ∀ (w n : Nat) (c : Char), c ∈ toHexFixed w n →
    ∃ k, k < 16 ∧ c = hexChar k := by
  intro w
  induction w with
  | zero => intro n c hc; simp [toHexFixed] at hc
  | succ w ih =>
      intro n c hc
      simp only [toHexFixed] at hc
      rcases List.mem_append.mp hc with h | h
      · exact ih (n / 16) c h
      · refine ⟨n % 16, Nat.mod_lt _ (by norm_num), ?_⟩
        simpa using h

/-- Splitting a fixed-width hex rendering into high and low nibble
groups. -/
theorem toHexFixed_split : ∀ (b a n : Nat),
    toHexFixed (a + b) n = toHexFixed a (n / 16 ^ b) ++ toHexFixed b n := by
  intro b
  induction b with
  | zero =>
      intro a n
      simp [toHexFixed]
  | succ b ih =>
      intro a n
      rw [Nat.add_succ]
      show toHexFixed (a + b) (n / 16) ++ [hexChar (n % 16)] = _
      rw [ih a (n / 16)]
      have hdd : n / 16 / 16 ^ b = n / 16 ^ (b + 1) := by
        rw [Nat.div_div_eq_div_mul]
        congr 1
        rw [pow_succ]
        ring
      rw [hdd]
      show _ = toHexFixed a (n / 16 ^ (b + 1)) ++ (toHexFixed b (n / 16) ++ [hexChar (n % 16)])
      rw [List.append_assoc]

/-- Folding the hex decoder over a fixed-width rendering recovers the
value modulo the width. -/
theorem fromHex_toHexFixed : ∀ (w n acc : Nat),
    List.foldl (fun acc c => acc * 16 + hexVal c) acc (toHexFixed w n) =
      acc * 16 ^ w + n % 16 ^ w := by
  intro w
  induction w with
  | zero => intro n acc; simp [toHexFixed, Nat.mod_one]
  | succ w ih =>
      intro n acc
      show List.foldl _ acc (toHexFixed w (n / 16) ++ [hexChar (n % 16)]) = _
      rw [List.foldl_concat, ih (n / 16) acc]
      have hval : hexVal (hexChar (n % 16)) = n % 16 :=
        (hexChar_facts (n % 16) (Nat.mod_lt _ (by norm_num))).2.2.2
      rw [hval]
      have h16 : (16 : Nat) ^ (w + 1) = 16 * 16 ^ w := by
        rw [pow_succ]; ring
      rw [h16, Nat.mod_mul]
      have hm1 : n / 16 % 16 ^ w = n / 16 % 16 ^ w := rfl
      generalize n / 16 % 16 ^ w = m1
      generalize n % 16 = m2
      generalize (16 : Nat) ^ w = p
      ring

/-- The dash replacement leaves a hex-digit list unchanged. -/
theorem map_dashU_toHexFixed : ∀ (w n : Nat),
    (toHexFixed w n).map dashU = toHexFixed w n := by
  intro w
  induction w with
  | zero => intro n; rfl
  | succ w ih =>
      intro n
      show ((toHexFixed w (n / 16)) ++ [hexChar (n % 16)]).map dashU = _
      rw [List.map_append, ih (n / 16)]
      have h := (hexChar_facts (n % 16) (Nat.mod_lt _ (by norm_num))).1
      simp [h]
      rfl

/-- The lower-hex filter keeps a hex-digit list whole. -/
theorem filter_hex_toHexFixed : ∀ (w n : Nat),
    (toHexFixed w n).filter isLowerHex = toHexFixed w n := by
  intro w
  induction w with
  | zero => intro n; rfl
  | succ w ih =>
      intro n
      show ((toHexFixed w (n / 16)) ++ [hexChar (n % 16)]).filter isLowerHex = _
      rw [List.filter_append, ih (n / 16)]
      have h := (hexChar_facts (n % 16) (Nat.mod_lt _ (by norm_num))).2.1
      simp [h]
      rfl

/-- Replacing dashes and then filtering to hex digits turns the canonical
uuid string into the full-width hex rendering of its value. -/
theorem uuid_filter (v : Nat) :
    ((uuidCanonical v).map dashU).filter isLowerHex = toHexFixed 32 v := by
  unfold uuidCanonical
  have hdash : dashU '-' = '_' := rfl
  have hus : isLowerHex '_' = false := by decide
  simp only [List.map_append, List.map_cons, List.filter_append, List.filter_cons,
    map_dashU_toHexFixed, filter_hex_toHexFixed, hdash, hus]
  simp only [Bool.false_eq_true, if_false]
  have e1 : toHexFixed 32 v = toHexFixed 8 (v / 16 ^ 24) ++ toHexFixed 24 v := by
    have h := toHexFixed_split 24 8 v
    norm_num at h
    exact h
  have e2 : toHexFixed 24 v = toHexFixed 4 (v / 16 ^ 20) ++ toHexFixed 20 v := by
    have h := toHexFixed_split 20 4 v
    norm_num at h
    exact h
  have e3 : toHexFixed 20 v = toHexFixed 4 (v / 16 ^ 16) ++ toHexFixed 16 v := by
    have h := toHexFixed_split 16 4 v
    norm_num at h
    exact h
  have e4 : toHexFixed 16 v = toHexFixed 4 (v / 16 ^ 12) ++ toHexFixed 12 v := by
    have h := toHexFixed_split 12 4 v
    norm_num at h
    exact h
  rw [e1, e2, e3, e4]

/-- Decoding a generated savepoint name recovers the uuid value modulo
`16 ^ 32 = 2 ^ 128`. -/
theorem savepointDecode_name (v : Nat) :
    savepointDecode (pySavepointName v) = v % 16 ^ 32 := by
  unfold savepointDecode pySavepointName
  show fromHex (("STARLETTE_SAVEPOINT_".data ++ (uuidCanonical v).map dashU).filter isLowerHex)
      = v % 16 ^ 32
  rw [List.filter_append]
  rw [show ("STARLETTE_SAVEPOINT_".data.filter isLowerHex) = [] from by decide]
  rw [List.nil_append, uuid_filter]
  unfold fromHex
  rw [fromHex_toHexFixed]
  simp

/-- Every character of a generated savepoint name is a letter, a digit or
an underscore. -/
theorem pySavepointName_chars (v : Nat) :
    ∀ c ∈ (pySavepointName v).data, isIdentChar c = true := by
  intro c hc
  have hc2 : c ∈ "STARLETTE_SAVEPOINT_".data ++ (uuidCanonical v).map dashU := hc
  rcases List.mem_append.mp hc2 with h | h
  · have hall : ∀ x ∈ "STARLETTE_SAVEPOINT_".data, isIdentChar x = true := by decide
    exact hall c h
  · obtain ⟨d, hd, rfl⟩ := List.mem_map.mp h
    have hd2 : d = '-' ∨ ∃ k, k < 16 ∧ d = hexChar k := by
      unfold uuidCanonical at hd
      simp only [List.mem_append, List.mem_cons] at hd
      rcases hd with h1 | h1 | h1 | h1 | h1 | h1 | h1 | h1 | h1
      · exact Or.inr (toHexFixed_mem 8 _ d h1)
      · exact Or.inl h1
      · exact Or.inr (toHexFixed_mem 4 _ d h1)
      · exact Or.inl h1
      · exact Or.inr (toHexFixed_mem 4 _ d h1)
      · exact Or.inl h1
      · exact Or.inr (toHexFixed_mem 4 _ d h1)
      · exact Or.inl h1
      · exact Or.inr (toHexFixed_mem 12 _ d h1)
    rcases hd2 with h1 | ⟨k, hk, h1⟩
    · rw [h1]; decide
    · rw [h1, (hexChar_facts k hk).1]
      exact (hexChar_facts k hk).2.2.1

/-- Savepoint names are injective over the 128-bit uuid range. -/
theorem pySavepointName_inj (u v : Nat) (hu : u < 2 ^ 128) (hv : v < 2 ^ 128)
    (h : pySavepointName u = pySavepointName v) : u = v := by
  have hpow : (16 : Nat) ^ 32 = 2 ^ 128 := by norm_num
  have hd := congrArg savepointDecode h
  rw [savepointDecode_name, savepointDecode_name, hpow,
    Nat.mod_eq_of_lt hu, Nat.mod_eq_of_lt hv] at hd
  exact hd

end Databases

namespace Databases

/-- C8: a `start()` that finds no open root issues a native BEGIN on the
leased connection and marks the transaction root; a `start()` under an
open root stores a freshly generated savepoint name and issues
`SAVEPOINT <name>` on the same leased connection; every generated name
consists solely of letters, digits and underscores (a valid bare SQL
identifier), and names from distinct 128-bit uuid values are distinct. -/
theorem c8_start_begin_or_savepoint :
    (∀ (w : World) (t : Nat) (tx : Txn) (cu : Bool),
        w.txns[t]? = some tx → w.sess.has_root_transaction = false →
        ∃ c, (txnStart w t cu true).1.sess.conn = some c ∧
          (txnStart w t cu true).2.1.getLast? = some (Ev.connBegin c) ∧
          ∃ tx1, (txnStart w t cu true).1.txns[t]? = some tx1 ∧
            tx1.is_root = true ∧ tx1.conn = some c) ∧
    (∀ (w : World) (t : Nat) (tx : Txn),
        w.txns[t]? = some tx → w.sess.has_root_transaction = true → tx.is_root = false →
        ∃ c, (txnStart w t true true).1.sess.conn = some c ∧
          Ev.cursorExec c ("SAVEPOINT " ++ pySavepointName w.nextUuid) ∈
            (txnStart w t true true).2.1 ∧
          ∃ tx1, (txnStart w t true true).1.txns[t]? = some tx1 ∧
            tx1.is_root = false ∧
            tx1.savepoint_name = some (pySavepointName w.nextUuid)) ∧
    (∀ v : Nat, ∀ c ∈ (pySavepointName v).data, isIdentChar c = true) ∧
    (∀ u v : Nat, u < 2 ^ 128 → v < 2 ^ 128 →
        pySavepointName u = pySavepointName v → u = v) := by
  refine ⟨?_, ?_, ?_, ?_⟩
  · intro w t tx cu htx hflag
    have hlen : t < w.txns.length := by
      rcases List.getElem?_eq_some.mp htx with ⟨h, _⟩
      exact h
    unfold txnStart
    rw [htx]
    dsimp only
    rw [hflag]
    simp only [Bool.not_false, if_true]
    rcases hA : ({ w.sess with has_root_transaction := true } : Session).acquire_connection
      with ⟨c, s2, evA⟩
    dsimp only
    refine ⟨c, ?_, ?_, ?_⟩
    · have h := acquire_conn_eq ({ w.sess with has_root_transaction := true } : Session)
      rw [hA] at h
      exact h
    · exact List.getLast?_concat _
    · refine ⟨_, List.getElem?_set_self hlen, rfl, rfl⟩
  · intro w t tx htx hflag hroot
    have hlen : t < w.txns.length := by
      rcases List.getElem?_eq_some.mp htx with ⟨h, _⟩
      exact h
    unfold txnStart
    rw [htx]
    dsimp only
    rw [hflag]
    simp only [Bool.not_true, Bool.false_eq_true, if_false]
    rcases hA : w.sess.acquire_connection with ⟨c, s2, evA⟩
    dsimp only
    rw [hroot]
    simp only [Bool.false_eq_true, if_false, if_true]
    refine ⟨c, ?_, ?_, ?_⟩
    · have h := acquire_conn_eq w.sess
      rw [hA] at h
      exact h
    · simp
    · refine ⟨_, List.getElem?_set_self hlen, rfl, rfl⟩
  · intro v
    exact pySavepointName_chars v
  · exact pySavepointName_inj

/-- Witness for `c8_start_begin_or_savepoint`: the root branch on
`wCreated`, the savepoint branch on the unstarted transaction 1 of
`wRootPlusCreated`, identifier validity at seed 5, and injectivity at the
pair (0, 1). -/
theorem c8_start_begin_or_savepoint_witness :
    (∃ c, (txnStart wCreated 0 true true).1.sess.conn = some c ∧
      (txnStart wCreated 0 true true).2.1.getLast? = some (Ev.connBegin c) ∧
      ∃ tx1, (txnStart wCreated 0 true true).1.txns[0]? = some tx1 ∧
        tx1.is_root = true ∧ tx1.conn = some c) ∧
    (∃ c, (txnStart wRootPlusCreated 1 true true).1.sess.conn = some c ∧
      Ev.cursorExec c ("SAVEPOINT " ++ pySavepointName wRootPlusCreated.nextUuid) ∈
        (txnStart wRootPlusCreated 1 true true).2.1 ∧
      ∃ tx1, (txnStart wRootPlusCreated 1 true true).1.txns[1]? = some tx1 ∧
        tx1.is_root = false ∧
        tx1.savepoint_name = some (pySavepointName wRootPlusCreated.nextUuid)) ∧
    (∀ c ∈ (pySavepointName 5).data, isIdentChar c = true) ∧
    (pySavepointName 0 = pySavepointName 1 → (0 : Nat) = 1) := by
  refine ⟨?_, ?_, ?_, ?_⟩
  · exact c8_start_begin_or_savepoint.1 wCreated 0 Txn.new true (by decide) (by decide)
  · exact c8_start_begin_or_savepoint.2.1 wRootPlusCreated 1 Txn.new (by decide) (by decide)
      (by decide)
  · exact c8_start_begin_or_savepoint.2.2.1 5
  · exact c8_start_begin_or_savepoint.2.2.2 0 1 (by norm_num) (by norm_num)

end Databases

namespace Databases

/-! ### C3: step characterisation lemmas -/

/-- A successful root `commit` marks the transaction terminated and
cleared, drops the session flag, and clears the ghost owner. -/
theorem txnCommit_root_ok (w : World) (t : Nat) (tx0 : Txn) (c : Nat) (cu : Bool)
    (htx : w.txns[t]? = some tx0) (hr : tx0.is_root = true) (hc : tx0.conn = some c) :
    (txnCommit w t cu true).1.txns = w.txns.set t { tx0 with termG := true, clearedG := true } ∧
    (txnCommit w t cu true).1.sess.has_root_transaction = false ∧
    (txnCommit w t cu true).1.rootOwner = none := by
  unfold txnCommit
  rw [htx]
  dsimp only
  rw [hr]
  simp only [if_true]
  rw [hc]
  dsimp only
  refine ⟨rfl, ?_, rfl⟩
  rw [release_flag]

/-- A root `commit` whose native COMMIT raises only marks the transaction
terminated: the flag, owner and session are untouched. -/
theorem txnCommit_root_fail (w : World) (t : Nat) (tx0 : Txn) (cu : Bool)
    (htx : w.txns[t]? = some tx0) (hr : tx0.is_root = true) :
    (txnCommit w t cu false).1 = { w with txns := w.txns.set t { tx0 with termG := true } } := by
  unfold txnCommit
  rw [htx]
  dsimp only
  rw [hr]
  simp only [if_true]
  cases hc : tx0.conn <;> rfl

/-- A non-root `commit` (whatever its cursor/statement outcomes) marks the
transaction terminated and leaves the flag and owner untouched. -/
theorem txnCommit_nonroot (w : World) (t : Nat) (tx0 : Txn) (cu e : Bool)
    (htx : w.txns[t]? = some tx0) (hr : tx0.is_root = false) :
    (txnCommit w t cu e).1.txns = w.txns.set t { tx0 with termG := true } ∧
    (txnCommit w t cu e).1.sess.has_root_transaction = w.sess.has_root_transaction ∧
    (txnCommit w t cu e).1.rootOwner = w.rootOwner := by
  unfold txnCommit
  rw [htx]
  dsimp only
  rw [hr]
  simp only [Bool.false_eq_true, if_false]
  cases hc : tx0.conn with
  | none => exact ⟨rfl, rfl, rfl⟩
  | some c =>
      cases cu with
      | false => exact ⟨rfl, rfl, rfl⟩
      | true =>
          dsimp only
          cases hsp : tx0.savepoint_name with
          | none => exact ⟨rfl, rfl, rfl⟩
          | some sp =>
              cases e with
              | false => exact ⟨rfl, rfl, rfl⟩
              | true =>
                  exact ⟨rfl, release_flag w.sess, rfl⟩

/-- A successful root `rollback` behaves like a successful root commit on
the session state. -/
theorem txnRollback_root_ok (w : World) (t : Nat) (tx0 : Txn) (c : Nat) (cu : Bool)
    (htx : w.txns[t]? = some tx0) (hr : tx0.is_root = true) (hc : tx0.conn = some c) :
    (txnRollback w t cu true).1.txns = w.txns.set t { tx0 with termG := true, clearedG := true } ∧
    (txnRollback w t cu true).1.sess.has_root_transaction = false ∧
    (txnRollback w t cu true).1.rootOwner = none := by
  unfold txnRollback
  rw [htx]
  dsimp only
  rw [hr]
  simp only [if_true]
  rw [hc]
  dsimp only
  refine ⟨rfl, ?_, rfl⟩
  rw [release_flag]

/-- A root `rollback` whose native ROLLBACK raises only marks the
transaction terminated. -/
theorem txnRollback_root_fail (w : World) (t : Nat) (tx0 : Txn) (cu : Bool)
    (htx : w.txns[t]? = some tx0) (hr : tx0.is_root = true) :
    (txnRollback w t cu false).1 = { w with txns := w.txns.set t { tx0 with termG := true } } := by
  unfold txnRollback
  rw [htx]
  dsimp only
  rw [hr]
  simp only [if_true]
  cases hc : tx0.conn <;> rfl

/-- A non-root `rollback` marks the transaction terminated and leaves the
flag and owner untouched. -/
theorem txnRollback_nonroot (w : World) (t : Nat) (tx0 : Txn) (cu e : Bool)
    (htx : w.txns[t]? = some tx0) (hr : tx0.is_root = false) :
    (txnRollback w t cu e).1.txns = w.txns.set t { tx0 with termG := true } ∧
    (txnRollback w t cu e).1.sess.has_root_transaction = w.sess.has_root_transaction ∧
    (txnRollback w t cu e).1.rootOwner = w.rootOwner := by
  unfold txnRollback
  rw [htx]
  dsimp only
  rw [hr]
  simp only [Bool.false_eq_true, if_false]
  cases hc : tx0.conn with
  | none => exact ⟨rfl, rfl, rfl⟩
  | some c =>
      cases cu with
      | false => exact ⟨rfl, rfl, rfl⟩
      | true =>
          dsimp only
          cases hsp : tx0.savepoint_name with
          | none => exact ⟨rfl, rfl, rfl⟩
          | some sp =>
              cases e with
              | false => exact ⟨rfl, rfl, rfl⟩
              | true =>
                  exact ⟨rfl, release_flag w.sess, rfl⟩

/-- `start` on a fresh transaction object: with the flag down it becomes
root (setting flag and owner); with the flag up it stays non-root, stores
a savepoint name, and leaves flag and owner alone. -/
theorem txnStart_world (w : World) (t : Nat) (cu e : Bool)
    (htx : w.txns[t]? = some Txn.new) :
    (w.sess.has_root_transaction = false →
      (txnStart w t cu e).1 =
        { sess := (({ w.sess with has_root_transaction := true } : Session).acquire_connection).2.1,
          txns := w.txns.set t
            { Txn.new with
                is_root := true
                setRootG := true
                conn := some ((({ w.sess with has_root_transaction := true } :
                  Session).acquire_connection).1)
                startedG := true },
          nextUuid := w.nextUuid, rootOwner := some t }) ∧
    (w.sess.has_root_transaction = true →
      (txnStart w t cu e).1 =
        { sess := (w.sess.acquire_connection).2.1,
          txns := w.txns.set t
            { Txn.new with
                conn := some ((w.sess.acquire_connection).1)
                startedG := true
                savepoint_name := some (pySavepointName w.nextUuid) },
          nextUuid := w.nextUuid + 1, rootOwner := w.rootOwner }) := by
  constructor
  · intro hf
    unfold txnStart
    rw [htx]
    dsimp only
    rw [hf]
    simp only [Bool.not_false, if_true]
    cases e <;> rfl
  · intro hf
    unfold txnStart
    rw [htx]
    dsimp only
    rw [hf]
    simp only [Bool.not_true, Bool.false_eq_true, if_false]
    cases cu <;> cases e <;> rfl

end Databases

namespace Databases

/-- Looking up in a list after `set`: either the updated slot or an
untouched one. -/
theorem getElem?_set_cases (l : List Txn) (t : Nat) (a : Txn) (u : Nat) (tx : Txn)
    (hu : (l.set t a)[u]? = some tx) :
    (u = t ∧ t < l.length ∧ tx = a) ∨ (u ≠ t ∧ l[u]? = some tx) := by
  by_cases he : t = u
  · subst he
    rw [List.getElem?_set] at hu
    simp only [if_pos rfl] at hu
    by_cases hl : t < l.length
    · rw [if_pos hl] at hu
      exact Or.inl ⟨rfl, hl, (Option.some.inj hu).symm⟩
    · rw [if_neg hl] at hu
      exact absurd hu (by simp)
  · right
    rw [List.getElem?_set_ne he] at hu
    exact ⟨fun hh => he hh.symm, hu⟩

/-- A number at least as large as everything in the list is not contained
in it. -/
theorem contains_false_of_forall_lt (st : List Nat) (n : Nat)
    (h : ∀ u ∈ st, u < n) : st.contains n = false := by
  cases hx : st.contains n
  · rfl
  · have hmem : n ∈ st := by simpa using hx
    exact absurd (h n hmem) (lt_irrefl n)

/-- Self-containment of a cons cell. -/
theorem contains_cons_self (t : Nat) (st : List Nat) : (t :: st).contains t = true := by
  simp

/-- Containment in a cons cell at a different head. -/
theorem contains_cons_ne (u t : Nat) (st : List Nat) (h : u ≠ t) :
    (t :: st).contains u = st.contains u := by
  rw [List.contains_cons]
  have : (u == t) = false := by simp [h]
  rw [this]
  simp

/-- Unified preservation of `LinkInv` by a termination step on a started,
not yet terminated transaction: either the successful-root shape (flag and
owner cleared, transaction marked cleared) or the flag-preserving shape
(failed root, or any non-root path). -/
theorem linkInv_term (n : Nat) (st tm : List Nat) (w : World) (t : Nat) (w2 : World)
    (h : LinkInv n st tm w) (ht : t < n) (hst : st.contains t = true)
    (htm : tm.contains t = false)
    (tx0 : Txn) (htx0 : w.txns[t]? = some tx0)
    (hcase :
      (tx0.is_root = true ∧
        w2.txns = w.txns.set t { tx0 with termG := true, clearedG := true } ∧
        w2.sess.has_root_transaction = false ∧ w2.rootOwner = none) ∨
      (w2.txns = w.txns.set t { tx0 with termG := true } ∧
        w2.sess.has_root_transaction = w.sess.has_root_transaction ∧
        w2.rootOwner = w.rootOwner)) :
    LinkInv n st (t :: tm) w2 := by
  obtain ⟨hlen, hstb, htmb, hpt, hTO, hFO, hOwn, hUniq⟩ := h
  have hlt : t < w.txns.length := by rw [hlen]; exact ht
  have hstarted : tx0.startedG = true := by
    rw [(hpt t tx0 htx0).1]; exact hst
  have hterm0 : tx0.termG = false := by
    rw [(hpt t tx0 htx0).2]; exact htm
  have hclr : tx0.clearedG = false := by
    cases hcl : tx0.clearedG
    · rfl
    · have h2 := ((hTO t tx0 htx0).2.1 hcl).2
      rw [hterm0] at h2
      exact absurd h2 (by decide)
  have hconnS : tx0.conn.isSome = true := (hTO t tx0 htx0).2.2.2.2 hstarted
  rcases hcase with ⟨hr, hT, hF, hO⟩ | ⟨hT, hF, hO⟩
  · have hsetr : tx0.setRootG = true := by
      rw [← (hTO t tx0 htx0).1]; exact hr
    refine ⟨?_, ?_, ?_, ?_, ?_, ?_, ?_, ?_⟩
    · rw [hT, List.length_set]; exact hlen
    · exact hstb
    · intro u hu
      rcases List.mem_cons.mp hu with h1 | h1
      · rw [h1]; exact ht
      · exact htmb u h1
    · intro u tx hu
      rw [hT] at hu
      rcases getElem?_set_cases _ _ _ _ _ hu with ⟨hut, _, htx⟩ | ⟨hne, hold⟩
      · rw [htx]
        constructor
        · show tx0.startedG = st.contains u
          rw [hstarted, hut, hst]
        · show (true : Bool) = (t :: tm).contains u
          rw [hut, contains_cons_self]
      · have hp := hpt u tx hold
        refine ⟨hp.1, ?_⟩
        rw [contains_cons_ne u t tm hne]
        exact hp.2
    · intro u tx hu
      rw [hT] at hu
      rcases getElem?_set_cases _ _ _ _ _ hu with ⟨hut, _, htx⟩ | ⟨hne, hold⟩
      · rw [htx]
        refine ⟨(hTO t tx0 htx0).1, ?_, ?_, ?_, ?_⟩
        · intro _; exact ⟨hsetr, rfl⟩
        · intro _; exact hstarted
        · intro hh; rw [hstarted] at hh; exact absurd hh (by decide)
        · intro _; exact hconnS
      · exact hTO u tx hold
    · rw [hF, hO]; rfl
    · intro u hu
      rw [hO] at hu
      exact absurd hu (by simp)
    · intro u tx hu hs hcu
      rw [hT] at hu
      rcases getElem?_set_cases _ _ _ _ _ hu with ⟨hut, _, htx⟩ | ⟨hne, hold⟩
      · rw [htx] at hcu
        have hcu2 : (true : Bool) = false := hcu
        exact absurd hcu2 (by decide)
      · exfalso
        have howner : w.rootOwner = some t := hUniq t tx0 htx0 hsetr hclr
        have h2 := hUniq u tx hold hs hcu
        rw [howner] at h2
        exact hne (Option.some.inj h2).symm
  · refine ⟨?_, ?_, ?_, ?_, ?_, ?_, ?_, ?_⟩
    · rw [hT, List.length_set]; exact hlen
    · exact hstb
    · intro u hu
      rcases List.mem_cons.mp hu with h1 | h1
      · rw [h1]; exact ht
      · exact htmb u h1
    · intro u tx hu
      rw [hT] at hu
      rcases getElem?_set_cases _ _ _ _ _ hu with ⟨hut, _, htx⟩ | ⟨hne, hold⟩
      · rw [htx]
        constructor
        · show tx0.startedG = st.contains u
          rw [hstarted, hut, hst]
        · show (true : Bool) = (t :: tm).contains u
          rw [hut, contains_cons_self]
      · have hp := hpt u tx hold
        refine ⟨hp.1, ?_⟩
        rw [contains_cons_ne u t tm hne]
        exact hp.2
    · intro u tx hu
      rw [hT] at hu
      rcases getElem?_set_cases _ _ _ _ _ hu with ⟨hut, _, htx⟩ | ⟨hne, hold⟩
      · rw [htx]
        refine ⟨(hTO t tx0 htx0).1, ?_, ?_, ?_, ?_⟩
        · intro hh
          have hh2 : tx0.clearedG = true := hh
          rw [hclr] at hh2
          exact absurd hh2 (by decide)
        · intro _; exact hstarted
        · intro hh; rw [hstarted] at hh; exact absurd hh (by decide)
        · intro _; exact hconnS
      · exact hTO u tx hold
    · rw [hF, hO]; exact hFO
    · intro u hu
      rw [hO] at hu
      obtain ⟨tx, htxu, hs2, hc2⟩ := hOwn u hu
      by_cases hut : u = t
      · subst hut
        have htxeq : tx = tx0 := by
          rw [htxu] at htx0
          exact Option.some.inj htx0
        subst htxeq
        refine ⟨{ tx with termG := true }, ?_, hs2, hc2⟩
        rw [hT]
        exact List.getElem?_set_self hlt
      · refine ⟨tx, ?_, hs2, hc2⟩
        rw [hT, List.getElem?_set_ne (fun hh => hut hh.symm)]
        exact htxu
    · intro u tx hu hs hcu
      rw [hT] at hu
      rcases getElem?_set_cases _ _ _ _ _ hu with ⟨hut, _, htx⟩ | ⟨hne, hold⟩
      · subst hut
        rw [htx] at hs hcu
        rw [hO]
        exact hUniq u tx0 htx0 hs hcu
      · rw [hO]
        exact hUniq u tx hold hs hcu

end Databases

namespace Databases

/-- Creating a transaction object preserves the coupled invariant (with
one more created transaction). -/
theorem linkInv_create (n : Nat) (st tm : List Nat) (w : World)
    (h : LinkInv n st tm w) : LinkInv (n + 1) st tm (txnCreate w).1 := by
  obtain ⟨hlen, hstb, htmb, hpt, hTO, hFO, hOwn, hUniq⟩ := h
  have hsplit : ∀ (u : Nat) (tx : Txn), (w.txns ++ [Txn.new])[u]? = some tx →
      (w.txns[u]? = some tx ∧ u < n) ∨ (u = n ∧ tx = Txn.new) := by
    intro u tx hu
    by_cases hlt : u < w.txns.length
    · left
      rw [List.getElem?_append, if_pos hlt] at hu
      exact ⟨hu, hlen ▸ hlt⟩
    · right
      rw [List.getElem?_append_right (Nat.le_of_not_lt hlt)] at hu
      cases hd : u - w.txns.length with
      | zero =>
          rw [hd] at hu
          rw [List.getElem?_cons_zero] at hu
          refine ⟨?_, (Option.some.inj hu).symm⟩
          omega
      | succ k =>
          rw [hd] at hu
          rw [List.getElem?_cons_succ] at hu
          simp at hu
  refine ⟨?_, ?_, ?_, ?_, ?_, ?_, ?_, ?_⟩
  · show (w.txns ++ [Txn.new]).length = n + 1
    rw [List.length_append, hlen]
    rfl
  · intro u hu; exact Nat.lt_succ_of_lt (hstb u hu)
  · intro u hu; exact Nat.lt_succ_of_lt (htmb u hu)
  · intro u tx hu
    rcases hsplit u tx hu with ⟨h1, _⟩ | ⟨h1, h2⟩
    · exact hpt u tx h1
    · rw [h1, h2]
      constructor
      · show (false : Bool) = st.contains n
        exact (contains_false_of_forall_lt st n hstb).symm
      · show (false : Bool) = tm.contains n
        exact (contains_false_of_forall_lt tm n htmb).symm
  · intro u tx hu
    rcases hsplit u tx hu with ⟨h1, _⟩ | ⟨_, h2⟩
    · exact hTO u tx h1
    · rw [h2]
      unfold TxnOk
      decide
  · exact hFO
  · intro u hu
    obtain ⟨tx, htxu, hs, hc⟩ := hOwn u hu
    refine ⟨tx, ?_, hs, hc⟩
    have hlt : u < w.txns.length := (List.getElem?_eq_some.mp htxu).1
    show (w.txns ++ [Txn.new])[u]? = some tx
    rw [List.getElem?_append, if_pos hlt]
    exact htxu
  · intro u tx hu hs hc
    rcases hsplit u tx hu with ⟨h1, _⟩ | ⟨_, h2⟩
    · exact hUniq u tx h1 hs hc
    · rw [h2] at hs
      exact absurd hs (by decide)

/-- Starting a created, not yet started transaction preserves the coupled
invariant (with the transaction recorded as started). -/
theorem linkInv_start (n : Nat) (st tm : List Nat) (w : World) (t : Nat) (cu e : Bool)
    (h : LinkInv n st tm w) (ht : t < n) (hst : st.contains t = false) :
    LinkInv n (t :: st) tm (txnStart w t cu e).1 := by
  obtain ⟨hlen, hstb, htmb, hpt, hTO, hFO, hOwn, hUniq⟩ := h
  have hlt : t < w.txns.length := by rw [hlen]; exact ht
  obtain ⟨tx0, htx0⟩ : ∃ tx0, w.txns[t]? = some tx0 :=
    ⟨_, List.getElem?_eq_getElem hlt⟩
  have hnotstarted : tx0.startedG = false := by
    rw [(hpt t tx0 htx0).1]; exact hst
  have hnew : tx0 = Txn.new := (hTO t tx0 htx0).2.2.2.1 hnotstarted
  rw [hnew] at htx0
  have hterm : tm.contains t = false := by
    have h2 := (hpt t Txn.new htx0).2
    exact h2.symm
  cases hf : w.sess.has_root_transaction with
  | false =>
      have hw := (txnStart_world w t cu e htx0).1 hf
      have hownone : w.rootOwner = none := by
        rw [hf] at hFO
        cases ho : w.rootOwner
        · rfl
        · rw [ho] at hFO; simp at hFO
      rw [hw]
      refine ⟨?_, ?_, ?_, ?_, ?_, ?_, ?_, ?_⟩
      · show (w.txns.set t _).length = n
        rw [List.length_set]; exact hlen
      · intro u hu
        rcases List.mem_cons.mp hu with h1 | h1
        · rw [h1]; exact ht
        · exact hstb u h1
      · exact htmb
      · intro u tx hu
        rcases getElem?_set_cases _ _ _ _ _ hu with ⟨hut, _, htx⟩ | ⟨hne, hold⟩
        · rw [htx]
          constructor
          · show (true : Bool) = (t :: st).contains u
            rw [hut, contains_cons_self]
          · show (false : Bool) = tm.contains u
            rw [hut, hterm]
        · have hp := hpt u tx hold
          constructor
          · rw [contains_cons_ne u t st hne]
            exact hp.1
          · exact hp.2
      · intro u tx hu
        rcases getElem?_set_cases _ _ _ _ _ hu with ⟨hut, _, htx⟩ | ⟨hne, hold⟩
        · rw [htx]
          refine ⟨rfl, ?_, ?_, ?_, ?_⟩
          · intro hh
            have hh2 : (false : Bool) = true := hh
            exact absurd hh2 (by decide)
          · intro _; rfl
          · intro hh
            have hh2 : (true : Bool) = false := hh
            exact absurd hh2 (by decide)
          · intro _; rfl
        · exact hTO u tx hold
      · show _ = (some t).isSome
        rw [acquire_flag]
        rfl
      · intro u hu
        have hut : t = u := Option.some.inj hu
        subst hut
        exact ⟨_, List.getElem?_set_self hlt, rfl, rfl⟩
      · intro u tx hu hs hc
        rcases getElem?_set_cases _ _ _ _ _ hu with ⟨hut, _, htx⟩ | ⟨hne, hold⟩
        · rw [hut]
        · exfalso
          have h2 := hUniq u tx hold hs hc
          rw [hownone] at h2
          exact absurd h2 (by simp)
  | true =>
      have hw := (txnStart_world w t cu e htx0).2 hf
      rw [hw]
      refine ⟨?_, ?_, ?_, ?_, ?_, ?_, ?_, ?_⟩
      · show (w.txns.set t _).length = n
        rw [List.length_set]; exact hlen
      · intro u hu
        rcases List.mem_cons.mp hu with h1 | h1
        · rw [h1]; exact ht
        · exact hstb u h1
      · exact htmb
      · intro u tx hu
        rcases getElem?_set_cases _ _ _ _ _ hu with ⟨hut, _, htx⟩ | ⟨hne, hold⟩
        · rw [htx]
          constructor
          · show (true : Bool) = (t :: st).contains u
            rw [hut, contains_cons_self]
          · show (false : Bool) = tm.contains u
            rw [hut, hterm]
        · have hp := hpt u tx hold
          constructor
          · rw [contains_cons_ne u t st hne]
            exact hp.1
          · exact hp.2
      · intro u tx hu
        rcases getElem?_set_cases _ _ _ _ _ hu with ⟨hut, _, htx⟩ | ⟨hne, hold⟩
        · rw [htx]
          refine ⟨rfl, ?_, ?_, ?_, ?_⟩
          · intro hh
            have hh2 : (false : Bool) = true := hh
            exact absurd hh2 (by decide)
          · intro hh
            have hh2 : (false : Bool) = true := hh
            exact absurd hh2 (by decide)
          · intro hh
            have hh2 : (true : Bool) = false := hh
            exact absurd hh2 (by decide)
          · intro _; rfl
        · exact hTO u tx hold
      · show (w.sess.acquire_connection).2.1.has_root_transaction = w.rootOwner.isSome
        rw [acquire_flag]
        exact hFO
      · intro u hu
        obtain ⟨tx, htxu, hs2, hc2⟩ := hOwn u hu
        have hne : u ≠ t := by
          intro hh
          rw [hh] at htxu
          rw [htxu] at htx0
          have := Option.some.inj htx0
          rw [this] at hs2
          exact absurd hs2 (by decide)
        refine ⟨tx, ?_, hs2, hc2⟩
        show (w.txns.set t _)[u]? = some tx
        rw [List.getElem?_set_ne (fun hh => hne hh.symm)]
        exact htxu
      · intro u tx hu hs hc
        rcases getElem?_set_cases _ _ _ _ _ hu with ⟨hut, _, htx⟩ | ⟨hne, hold⟩
        · rw [htx] at hs
          have hs2 : (false : Bool) = true := hs
          exact absurd hs2 (by decide)
        · exact hUniq u tx hold hs hc

/-- Committing a started, unterminated transaction preserves the coupled
invariant (with the transaction recorded as terminated). -/
theorem linkInv_commit (n : Nat) (st tm : List Nat) (w : World) (t : Nat) (cu e : Bool)
    (h : LinkInv n st tm w) (ht : t < n) (hst : st.contains t = true)
    (htm : tm.contains t = false) :
    LinkInv n st (t :: tm) (txnCommit w t cu e).1 := by
  have hlt : t < w.txns.length := by rw [h.1]; exact ht
  obtain ⟨tx0, htx0⟩ : ∃ tx0, w.txns[t]? = some tx0 :=
    ⟨_, List.getElem?_eq_getElem hlt⟩
  cases hr : tx0.is_root with
  | false =>
      obtain ⟨hT, hF, hO⟩ := txnCommit_nonroot w t tx0 cu e htx0 hr
      exact linkInv_term n st tm w t _ h ht hst htm tx0 htx0 (Or.inr ⟨hT, hF, hO⟩)
  | true =>
      cases e with
      | false =>
          have hw := txnCommit_root_fail w t tx0 cu htx0 hr
          refine linkInv_term n st tm w t _ h ht hst htm tx0 htx0 (Or.inr ⟨?_, ?_, ?_⟩)
          · rw [hw]
          · rw [hw]
          · rw [hw]
      | true =>
          have hstarted : tx0.startedG = true := by
            rw [(h.2.2.2.1 t tx0 htx0).1]; exact hst
          have hconnS : tx0.conn.isSome = true :=
            (h.2.2.2.2.1 t tx0 htx0).2.2.2.2 hstarted
          obtain ⟨c, hc⟩ := Option.isSome_iff_exists.mp hconnS
          obtain ⟨hT, hF, hO⟩ := txnCommit_root_ok w t tx0 c cu htx0 hr hc
          exact linkInv_term n st tm w t _ h ht hst htm tx0 htx0 (Or.inl ⟨hr, hT, hF, hO⟩)

/-- Rolling back a started, unterminated transaction preserves the coupled
invariant. -/
theorem linkInv_rollback (n : Nat) (st tm : List Nat) (w : World) (t : Nat) (cu e : Bool)
    (h : LinkInv n st tm w) (ht : t < n) (hst : st.contains t = true)
    (htm : tm.contains t = false) :
    LinkInv n st (t :: tm) (txnRollback w t cu e).1 := by
  have hlt : t < w.txns.length := by rw [h.1]; exact ht
  obtain ⟨tx0, htx0⟩ : ∃ tx0, w.txns[t]? = some tx0 :=
    ⟨_, List.getElem?_eq_getElem hlt⟩
  cases hr : tx0.is_root with
  | false =>
      obtain ⟨hT, hF, hO⟩ := txnRollback_nonroot w t tx0 cu e htx0 hr
      exact linkInv_term n st tm w t _ h ht hst htm tx0 htx0 (Or.inr ⟨hT, hF, hO⟩)
  | true =>
      cases e with
      | false =>
          have hw := txnRollback_root_fail w t tx0 cu htx0 hr
          refine linkInv_term n st tm w t _ h ht hst htm tx0 htx0 (Or.inr ⟨?_, ?_, ?_⟩)
          · rw [hw]
          · rw [hw]
          · rw [hw]
      | true =>
          have hstarted : tx0.startedG = true := by
            rw [(h.2.2.2.1 t tx0 htx0).1]; exact hst
          have hconnS : tx0.conn.isSome = true :=
            (h.2.2.2.2.1 t tx0 htx0).2.2.2.2 hstarted
          obtain ⟨c, hc⟩ := Option.isSome_iff_exists.mp hconnS
          obtain ⟨hT, hF, hO⟩ := txnRollback_root_ok w t tx0 c cu htx0 hr hc
          exact linkInv_term n st tm w t _ h ht hst htm tx0 htx0 (Or.inl ⟨hr, hT, hF, hO⟩)

end Databases

namespace Databases

/-- Running any well-formed call sequence preserves the coupled invariant
(with suitable bookkeeping state). -/
theorem runOps_linkInv : ∀ (l : List Op) (n : Nat) (st tm : List Nat) (w : World),
    LinkInv n st tm w → WFB n st tm l = true →
    ∃ n2 st2 tm2, LinkInv n2 st2 tm2 (runOps w l) := by
  intro l
  induction l with
  | nil => intro n st tm w h _; exact ⟨n, st, tm, h⟩
  | cons o rest ih =>
      intro n st tm w h hwf
      cases o with
      | create =>
          exact ih (n + 1) st tm _ (linkInv_create n st tm w h) hwf
      | start t cu e =>
          simp only [WFB] at hwf
          rw [Bool.and_eq_true, Bool.and_eq_true] at hwf
          obtain ⟨⟨h1, h2⟩, h3⟩ := hwf
          have ht : t < n := of_decide_eq_true h1
          have hstf : st.contains t = false := by
            cases hx : st.contains t
            · rfl
            · rw [hx] at h2; exact absurd h2 (by decide)
          exact ih n (t :: st) tm _ (linkInv_start n st tm w t cu e h ht hstf) h3
      | commit t cu e =>
          simp only [WFB] at hwf
          rw [Bool.and_eq_true, Bool.and_eq_true, Bool.and_eq_true] at hwf
          obtain ⟨⟨⟨h1, h2⟩, h2b⟩, h3⟩ := hwf
          have ht : t < n := of_decide_eq_true h1
          have htmf : tm.contains t = false := by
            cases hx : tm.contains t
            · rfl
            · rw [hx] at h2b; exact absurd h2b (by decide)
          exact ih n st (t :: tm) _ (linkInv_commit n st tm w t cu e h ht h2 htmf) h3
      | rollback t cu e =>
          simp only [WFB] at hwf
          rw [Bool.and_eq_true, Bool.and_eq_true, Bool.and_eq_true] at hwf
          obtain ⟨⟨⟨h1, h2⟩, h2b⟩, h3⟩ := hwf
          have ht : t < n := of_decide_eq_true h1
          have htmf : tm.contains t = false := by
            cases hx : tm.contains t
            · rfl
            · rw [hx] at h2b; exact absurd h2b (by decide)
          exact ih n st (t :: tm) _ (linkInv_rollback n st tm w t cu e h ht h2 htmf) h3

/-- A predicate holding at no two distinct positions holds at most once. -/
theorem countP_le_one_of_unique (p : Txn → Bool) :
    ∀ l : List Txn,
      (∀ (i j : Nat) (tx tx2 : Txn), l[i]? = some tx → l[j]? = some tx2 →
        p tx = true → p tx2 = true → i = j) →
      l.countP p ≤ 1 := by
  intro l
  induction l with
  | nil => intro _; simp [List.countP_nil]
  | cons a l ih =>
      intro h
      rw [List.countP_cons]
      cases hp : p a with
      | true =>
          have hz : List.countP p l = 0 := by
            rw [List.countP_eq_zero]
            intro x hx hpx
            obtain ⟨k, hk, hkx⟩ := List.mem_iff_getElem.mp hx
            have h0 : (a :: l)[0]? = some a := List.getElem?_cons_zero
            have hk1 : (a :: l)[k + 1]? = some x := by
              rw [List.getElem?_cons_succ]
              rw [List.getElem?_eq_getElem hk, hkx]
            have h2 := h 0 (k + 1) a x h0 hk1 hp hpx
            simp at h2
          rw [hz]
          simp
      | false =>
          have h2 : ∀ (i j : Nat) (tx tx2 : Txn), l[i]? = some tx → l[j]? = some tx2 →
              p tx = true → p tx2 = true → i = j := by
            intro i j tx tx2 hi hj hpi hpj
            have h3 := h (i + 1) (j + 1) tx tx2 (by rw [List.getElem?_cons_succ]; exact hi)
              (by rw [List.getElem?_cons_succ]; exact hj) hpi hpj
            omega
          simpa using ih h2

/-- C3 counterexample: over unrestricted call sequences the claim fails.
In `doubleCommitTrace`, `commit` is called a second time on transaction 0
after transaction 1 has become the root: every call returns without
raising, the stale root clears the flag transaction 1 set, and after
starting transaction 2 two root transactions are open (started, not
terminated) at once. -/
theorem c3_double_commit_two_open_roots :
    runErrs initWorld doubleCommitTrace =
      [none, none, none, none, none, none, none, none] ∧
    List.countP openRootB (runOps initWorld doubleCommitTrace).txns = 2 := by
  decide

/-- C3 (amended): restricted to well-formed call sequences — each
transaction started at most once and terminated at most once, after its
start — at most one root transaction is open at a time; `is_root` is true
exactly for the transactions whose `start` ran while `has_root_transaction`
was false (the ghost `setRootG`); and only a transaction that set the flag
(and has terminated) has cleared it.  Unconditionally, commit/rollback of
a non-root transaction and `start` under an open root never change
`has_root_transaction`. -/
theorem c3_root_flag_discipline :
    (∀ l : List Op, WF l = true →
      List.countP openRootB (runOps initWorld l).txns ≤ 1 ∧
      (∀ (i : Nat) (tx : Txn), (runOps initWorld l).txns[i]? = some tx →
          tx.is_root = tx.setRootG) ∧
      (∀ (i : Nat) (tx : Txn), (runOps initWorld l).txns[i]? = some tx →
          tx.clearedG = true → tx.setRootG = true ∧ tx.termG = true)) ∧
    (∀ (w : World) (t : Nat) (cu e : Bool) (tx : Txn),
        w.txns[t]? = some tx → tx.is_root = false →
        (txnCommit w t cu e).1.sess.has_root_transaction = w.sess.has_root_transaction ∧
        (txnRollback w t cu e).1.sess.has_root_transaction = w.sess.has_root_transaction) ∧
    (∀ (w : World) (t : Nat) (cu e : Bool),
        w.sess.has_root_transaction = true →
        (txnStart w t cu e).1.sess.has_root_transaction = true) := by
  refine ⟨?_, ?_, ?_⟩
  · intro l hwf
    have hinit : LinkInv 0 [] [] initWorld := by
      refine ⟨rfl, ?_, ?_, ?_, ?_, rfl, ?_, ?_⟩
      · intro u hu; simp at hu
      · intro u hu; simp at hu
      · intro u tx hu; simp [initWorld] at hu
      · intro u tx hu; simp [initWorld] at hu
      · intro u hu; simp [initWorld] at hu
      · intro u tx hu; simp [initWorld] at hu
    obtain ⟨n2, st2, tm2, hfin⟩ := runOps_linkInv l 0 [] [] initWorld hinit hwf
    obtain ⟨hlen, hstb, htmb, hpt, hTO, hFO, hOwn, hUniq⟩ := hfin
    refine ⟨?_, ?_, ?_⟩
    · apply countP_le_one_of_unique
      intro i j tx tx2 hi hj hpi hpj
      simp only [openRootB, Bool.and_eq_true] at hpi hpj
      obtain ⟨⟨hr1, hs1⟩, ht1⟩ := hpi
      obtain ⟨⟨hr2, hs2⟩, ht2⟩ := hpj
      have htf1 : tx.termG = false := by
        cases hx : tx.termG
        · rfl
        · rw [hx] at ht1; exact absurd ht1 (by decide)
      have htf2 : tx2.termG = false := by
        cases hx : tx2.termG
        · rfl
        · rw [hx] at ht2; exact absurd ht2 (by decide)
      have hsr1 : tx.setRootG = true := by rw [← (hTO i tx hi).1]; exact hr1
      have hsr2 : tx2.setRootG = true := by rw [← (hTO j tx2 hj).1]; exact hr2
      have hc1 : tx.clearedG = false := by
        cases hx : tx.clearedG
        · rfl
        · have h2 := ((hTO i tx hi).2.1 hx).2
          rw [htf1] at h2
          exact absurd h2 (by decide)
      have hc2 : tx2.clearedG = false := by
        cases hx : tx2.clearedG
        · rfl
        · have h2 := ((hTO j tx2 hj).2.1 hx).2
          rw [htf2] at h2
          exact absurd h2 (by decide)
      have ho1 := hUniq i tx hi hsr1 hc1
      have ho2 := hUniq j tx2 hj hsr2 hc2
      rw [ho1] at ho2
      exact Option.some.inj ho2
    · intro i tx hi; exact (hTO i tx hi).1
    · intro i tx hi hc; exact (hTO i tx hi).2.1 hc
  · intro w t cu e tx htx hroot
    exact ⟨(txnCommit_nonroot w t tx cu e htx hroot).2.1,
      (txnRollback_nonroot w t tx cu e htx hroot).2.1⟩
  · intro w t cu e hf
    unfold txnStart
    cases htx : w.txns[t]? with
    | none => exact hf
    | some tx0 =>
        dsimp only
        rw [hf]
        simp only [Bool.not_true, Bool.false_eq_true, if_false]
        cases hr : tx0.is_root with
        | false =>
            simp only [hr, Bool.false_eq_true, if_false]
            cases cu <;> cases e <;>
              (show (w.sess.acquire_connection).2.1.has_root_transaction = true;
                rw [acquire_flag]; exact hf)
        | true =>
            simp only [hr, if_true]
            cases e <;>
              (show (w.sess.acquire_connection).2.1.has_root_transaction = true;
                rw [acquire_flag]; exact hf)

/-- Witness for `c3_root_flag_discipline` on a nested root/savepoint
rollback trace. -/
theorem c3_root_flag_discipline_witness :
    WF demoTrace = true ∧
    List.countP openRootB (runOps initWorld demoTrace).txns ≤ 1 :=
  ⟨by decide, (c3_root_flag_discipline.1 demoTrace (by decide)).1⟩

end Databases
